import Mathlib

/-!
Shallow embedding of the coolify-patrol update-decision engine and
orchestration loop, translated from the Go sources:

* internal/semver/semver.go  — version parsing, comparison, update policy
* internal/registry (client) — tag filtering and latest-tag selection
* internal/config            — configuration loading and validation
* internal/watcher/watcher.go — the check-cycle orchestrator

Go strings are modelled as Lean strings; the tags, policies and patterns
handled here are ASCII, where Go byte-wise string comparison coincides with
the character-wise comparison used below.  Go machine integers (int,
64-bit on the linux targets built by the repository Dockerfile) are
modelled as Int with explicit clamping where strconv overflow behaviour
matters.
-/

/-- Numeric value of a decimal digit string (most significant digit first). -/
def digitsToNat (ds : List Char) : Nat :=
  ds.foldl (fun n c => 10 * n + (c.toNat - 48)) 0

/-- Largest value of Go int (64-bit signed). -/
def maxInt64 : Nat := 2 ^ 63 - 1

/-- Go strconv.Atoi applied to an all-digit string with the returned error
DISCARDED, as in ParseVersion (semver.go lines 31-33, `major, _ :=
strconv.Atoi(...)`): on range error ParseInt still returns the clamped
bound, so a component above 2^63 - 1 silently becomes 2^63 - 1. -/
def atoiClamped (ds : List Char) : Int :=
  Int.ofNat (min (digitsToNat ds) maxInt64)

/-- Go strconv.Atoi as used where its returned error IS checked (pin
parsing in IsUpdateAllowed, semver.go lines 114-117, and in
parseCompactApps): Atoi returns a non-nil error both for non-numeric
text and for a value outside the signed 64-bit range (ErrRange), and
those call sites reject on any non-nil error, so here an overflowing
numeral parses to none.  Syntax accepted: optional sign, then one or
more decimal digits. -/
def goAtoi (s : String) : Option Int :=
  let signed : Bool × List Char :=
    match s.data with
    | '-' :: r => (true, r)
    | '+' :: r => (false, r)
    | r => (false, r)
  if signed.2 = [] ∨ ¬ signed.2.all Char.isDigit then none
  else if signed.1 then
    if digitsToNat signed.2 ≤ 2 ^ 63 then some (-(digitsToNat signed.2 : Int)) else none
  else
    if digitsToNat signed.2 ≤ maxInt64 then some ((digitsToNat signed.2 : Int)) else none

/-- internal/semver/semver.go: the Version struct. -/
structure Version where
  major : Int
  minor : Int
  patch : Int
  prerelease : String
  build : String
  original : String
deriving Repr, DecidableEq

/-- Character class `[a-zA-Z0-9\-\.]` from the semver regex (used for both
the prerelease and the build groups). -/
def semverIdentChar (c : Char) : Bool :=
  c.isDigit || ('a' ≤ c && c ≤ 'z') || ('A' ≤ c && c ≤ 'Z') || c = '-' || c = '.'

/-- The optional `(?:-([a-zA-Z0-9\-\.]+))?(?:\+([a-zA-Z0-9\-\.]+))?$` tail
of the semver regex: returns (prerelease, build) on a match of the whole
remaining input, none otherwise.  The prerelease class excludes `+`, so
greedy matching is deterministic. -/
def parseTail : List Char → Option (List Char × List Char)
  | [] => some ([], [])
  | '-' :: r =>
    let pre := r.takeWhile semverIdentChar
    let rest := r.dropWhile semverIdentChar
    if pre = [] then none
    else
      match rest with
      | [] => some (pre, [])
      | '+' :: b => if b ≠ [] ∧ b.all semverIdentChar then some (pre, b) else none
      | _ => none
  | '+' :: b => if b ≠ [] ∧ b.all semverIdentChar then some ([], b) else none
  | _ => none

/-- The `v?` prefix of the semver regex: a leading v, when present, must
be consumed (nothing else can match it). -/
def stripLeadingV (cs : List Char) : List Char :=
  match cs with
  | 'v' :: r => r
  | r => r

/-- One `(\d+)` group of the semver regex: the (greedy, hence maximal)
leading digit run, which must be nonempty, and the rest. -/
def parseNum (cs : List Char) : Option (List Char × List Char) :=
  let d := cs.takeWhile Char.isDigit
  if d.isEmpty then none else some (d, cs.dropWhile Char.isDigit)

/-- One literal `\.` of the semver regex. -/
def expectDot : List Char → Option (List Char)
  | '.' :: r => some r
  | _ => none

/-- internal/semver/semver.go ParseVersion: anchored match of
`^v?(\d+)\.(\d+)\.(\d+)(?:-(pre))?(?:\+(build))?$` followed by Atoi on the
three numeric groups (errors discarded, hence atoiClamped). -/
def parseVersion (s : String) : Option Version :=
  match parseNum (stripLeadingV s.data) with
  | none => none
  | some (d1, r1) =>
    match expectDot r1 with
    | none => none
    | some cs2 =>
      match parseNum cs2 with
      | none => none
      | some (d2, r2) =>
        match expectDot r2 with
        | none => none
        | some cs3 =>
          match parseNum cs3 with
          | none => none
          | some (d3, r3) =>
            match parseTail r3 with
            | none => none
            | some pb =>
              some { major := atoiClamped d1, minor := atoiClamped d2,
                     patch := atoiClamped d3, prerelease := String.mk pb.1,
                     build := String.mk pb.2, original := s }

/-- Go strings.Compare, byte-wise lexicographic; coincides with this
character-wise comparison on the ASCII strings produced by parseVersion. -/
def listCompare : List Char → List Char → Int
  | [], [] => 0
  | [], _ :: _ => -1
  | _ :: _, [] => 1
  | a :: as, b :: bs => if a < b then -1 else if b < a then 1 else listCompare as bs

def strCompare (s t : String) : Int :=
  listCompare s.data t.data

/-- internal/semver/semver.go Version.Compare. -/
def Version.compare (v other : Version) : Int :=
  if v.major ≠ other.major then (if v.major < other.major then -1 else 1)
  else if v.minor ≠ other.minor then (if v.minor < other.minor then -1 else 1)
  else if v.patch ≠ other.patch then (if v.patch < other.patch then -1 else 1)
  else if v.prerelease = "" ∧ other.prerelease ≠ "" then 1
  else if v.prerelease ≠ "" ∧ other.prerelease = "" then -1
  else if v.prerelease ≠ "" ∧ other.prerelease ≠ "" then
    strCompare v.prerelease other.prerelease
  else 0

/-- The "Apply update policy" switch at the end of IsUpdateAllowed
(semver.go lines 123-145), reached once the version and pin checks have
passed. -/
def applyPolicy (currentVer latestVer : Version) (policy : String) : Bool × String :=
  if policy = "notify-only" then
    (false, "notify-only policy - update available but not applied")
  else if policy = "auto-patch" then
    if latestVer.major ≠ currentVer.major ∨ latestVer.minor ≠ currentVer.minor then
      (false, "auto-patch policy only allows patch updates")
    else (true, "patch update allowed")
  else if policy = "auto-minor" then
    if latestVer.major ≠ currentVer.major then
      (false, "auto-minor policy only allows minor and patch updates")
    else (true, "minor/patch update allowed")
  else if policy = "auto-all" then
    (true, "auto-all policy allows all updates")
  else
    (false, "unknown update policy: " ++ policy)

/-- internal/semver/semver.go IsUpdateAllowed.  Policies are the Go string
constants auto-patch / auto-minor / auto-all / notify-only; an empty pin
means no pin. -/
def isUpdateAllowed (current latest policy pin : String) : Bool × String :=
  match parseVersion current with
  | none =>
    if policy = "auto-all" then
      (current != latest, "non-semver update (auto-all policy)")
    else
      (false, "non-semver tag, policy " ++ policy ++ " requires explicit semver")
  | some currentVer =>
    match parseVersion latest with
    | none => (false, "latest tag " ++ latest ++ " is not semver")
    | some latestVer =>
      if latestVer.compare currentVer ≤ 0 then
        (false, "latest version is not newer than current")
      else
        let policySwitch : Bool × String := applyPolicy currentVer latestVer policy
        if pin ≠ "" then
          match goAtoi pin with
          | none => (false, "invalid pin value: " ++ pin)
          | some pinMajor =>
            if latestVer.major ≠ pinMajor then
              (false, "update would cross pin boundary (pinned to major " ++ toString pinMajor ++ ")")
            else policySwitch
        else policySwitch

/-! ## Tag selection

Two implementations exist in the repository.  `findLatestVersion` below is
internal/semver/semver.go FindLatestVersion.  `getLatestTag` is the
selection performed by the registry client's GetLatestTag (tag extraction
and HTTP fetching abstracted away: it receives the fetched tag names). -/

/-- Substring containment, Go strings.Contains (byte-wise; ASCII here). -/
def goContains (s pattern : String) : Bool :=
  (s.data.tails).any (fun t => pattern.data.isPrefixOf t)

/-- registry client filterTags (identical logic to semver.go
FilterPrereleaseTags): drop tags containing any exclude pattern. -/
def filterTags (tags excludePatterns : List String) : List String :=
  tags.filter (fun tag => ¬ excludePatterns.any (fun p => goContains tag p))

/-- Go string comparison a < b (byte-wise lexicographic; ASCII here). -/
def goStrLt (a b : String) : Bool :=
  listCompare a.data b.data < 0

/-- First maximal run of decimal digits in a component, as produced by
strings.FieldsFunc with a non-digit splitter and indexing the first field. -/
def firstDigitRun (cs : List Char) : List Char :=
  (cs.dropWhile (fun c => ¬ c.isDigit)).takeWhile Char.isDigit

/-- Go strings.Split with a one-character separator. -/
def splitOnChar (sep : Char) : List Char → List (List Char)
  | [] => [[]]
  | c :: rest =>
    match splitOnChar sep rest with
    | [] => [[]]
    | h :: t => if c = sep then [] :: h :: t else (c :: h) :: t

/-- registry client parseSimpleVersion: trim a leading v, split on dots,
need at least three components, take the first digit run of each of the
first three, Atoi it (error checked here: an overflowing component makes
the whole parse fail). -/
def parseSimpleVersion (v : String) : Option (Int × Int × Int) :=
  let cs := match v.data with
    | 'v' :: r => r
    | r => r
  match splitOnChar '.' cs with
  | p0 :: p1 :: p2 :: _ =>
    let r0 := firstDigitRun p0
    let r1 := firstDigitRun p1
    let r2 := firstDigitRun p2
    if r0 = [] ∨ r1 = [] ∨ r2 = [] then none
    else if digitsToNat r0 > maxInt64 ∨ digitsToNat r1 > maxInt64 ∨ digitsToNat r2 > maxInt64 then none
    else some ((digitsToNat r0 : Int), (digitsToNat r1 : Int), (digitsToNat r2 : Int))
  | _ => none

/-- registry client compareVersions: numeric triple comparison when both
sides parse as a simple version, raw lexicographic comparison otherwise. -/
def compareVersions (a b : String) : Int :=
  match parseSimpleVersion a, parseSimpleVersion b with
  | some va, some vb =>
    if va.1 ≠ vb.1 then va.1 - vb.1
    else if va.2.1 ≠ vb.2.1 then va.2.1 - vb.2.1
    else if va.2.2 ≠ vb.2.2 then va.2.2 - vb.2.2
    else 0
  | _, _ =>
    if goStrLt b a then 1 else if goStrLt a b then -1 else 0

/-- One bubbling step of Go insertion sort, on the reversed sorted prefix
(head = rightmost element): the new element a moves left past p while
less a p holds. -/
def goInsertRev (less : α → α → Bool) (a : α) : List α → List α
  | [] => [a]
  | p :: rest => if less a p then p :: goInsertRev less a rest else a :: p :: rest

def goSortAux (less : α → α → Bool) (accRev : List α) : List α → List α
  | [] => accRev.reverse
  | a :: rest => goSortAux less (goInsertRev less a accRev) rest

/-- Go sort.Slice as executed on short slices (insertion sort; sort.Slice
uses plain insertion sort for slices shorter than 12 elements, which
covers every list this development evaluates it on). -/
def goSortBy (less : α → α → Bool) (l : List α) : List α :=
  goSortAux less [] l

/-- registry client GetLatestTag after the tags have been fetched:
fail on an empty tag list, filter, fail if nothing survives, sort
descending by compareVersions and take the first element. -/
def getLatestTag (tags excludePatterns : List String) : Except String String :=
  if tags = [] then Except.error ("no tags found")
  else
    let filtered := filterTags tags excludePatterns
    if filtered = [] then Except.error ("no stable tags found after filtering")
    else
      match goSortBy (fun a b => compareVersions a b > 0) filtered with
      | best :: _ => Except.ok best
      | [] => Except.error ("no stable tags found after filtering")

/-- internal/semver/semver.go FindLatestVersion: keep the tags that parse
with no prerelease; if none, lexicographic maximum of the raw tags
(error when there are no tags at all); otherwise maximum by
Version.compare, returning its original text. -/
def findLatestVersion (tags : List String) : Except String String :=
  let versions := tags.filterMap (fun tag =>
    match parseVersion tag with
    | some v => if v.prerelease = "" then some v else none
    | none => none)
  match versions with
  | [] =>
    match tags with
    | [] => Except.error ("no tags found")
    | t0 :: rest =>
      Except.ok (rest.foldl (fun latest tag => if goStrLt latest tag then tag else latest) t0)
  | v0 :: rest =>
    Except.ok ((rest.foldl (fun latest v => if v.compare latest > 0 then v else latest) v0).original)

/-! ## Configuration loading (internal/config, src/unnamed/part_002)

Modelled for the environment-only path `Load("")` (no YAML file on disk),
which is the path the repository documents as primary.  The cron-syntax
validator of the robfig/cron dependency is abstracted as a parameter; it
is only consulted when a schedule is configured. -/

/-- pkg/types AppConfig; empty policy / pin mean "not set". -/
structure AppConfig where
  name : String
  uuid : String
  image : String
  policy : String
  pin : String
deriving Repr, DecidableEq

/-- Go strings.TrimSpace (ASCII whitespace; the Go version also trims
Unicode spaces, which do not occur in the inputs considered here). -/
def goTrimSpace (s : String) : String :=
  String.mk (((s.data.dropWhile Char.isWhitespace).reverse.dropWhile Char.isWhitespace).reverse)

/-- config.GetUpdatePolicy: per-app policy if set, else the default. -/
def getUpdatePolicy (app : AppConfig) (defaultPolicy : String) : String :=
  if app.policy ≠ "" then app.policy else defaultPolicy

/-- One pass of config parseCompactApps over the semicolon-separated spec
list, already split. -/
def parseCompactAppsAux : List (List Char) → Except String (List AppConfig)
  | [] => Except.ok []
  | specRaw :: restSpecs =>
    let specT := goTrimSpace (String.mk specRaw)
    if specT = "" then parseCompactAppsAux restSpecs
    else
      match splitOnChar ':' specT.data with
      | p0 :: p1 :: p2 :: ps =>
        let nm := goTrimSpace (String.mk p0)
        let uu := goTrimSpace (String.mk p1)
        let im := goTrimSpace (String.mk p2)
        if nm = "" then Except.error ("app name cannot be empty in spec")
        else if uu = "" then Except.error ("app uuid cannot be empty in spec")
        else if im = "" then Except.error ("app image cannot be empty in spec")
        else
          let polField : Except String String :=
            match ps with
            | [] => Except.ok ""
            | p3 :: _ =>
              if p3 = [] then Except.ok ""
              else
                let pol := goTrimSpace (String.mk p3)
                if pol = "auto-patch" ∨ pol = "auto-minor" ∨ pol = "auto-all" ∨ pol = "notify-only" then
                  Except.ok pol
                else Except.error ("invalid policy in spec. Must be: auto-patch, auto-minor, auto-all, or notify-only")
          match polField with
          | Except.error e => Except.error e
          | Except.ok pol =>
            let pinField : Except String String :=
              match ps with
              | _ :: p4 :: _ =>
                if p4 = [] then Except.ok ""
                else
                  let pn := goTrimSpace (String.mk p4)
                  match goAtoi pn with
                  | some _ => Except.ok pn
                  | none => Except.error ("invalid pin in spec. Must be a number")
              | _ => Except.ok ""
            match pinField with
            | Except.error e => Except.error e
            | Except.ok pn =>
              match parseCompactAppsAux restSpecs with
              | Except.error e => Except.error e
              | Except.ok apps =>
                Except.ok ({ name := nm, uuid := uu, image := im, policy := pol, pin := pn } :: apps)
      | _ => Except.error ("app spec must have at least name:uuid:image")

/-- config parseCompactApps: compact "name:uuid:image[:policy[:pin]]"
format, semicolon-separated.  Error messages abbreviate the Go fmt
messages (which also quote the offending spec text). -/
def parseCompactApps (appsStr : String) : Except String (List AppConfig) :=
  parseCompactAppsAux (splitOnChar ';' appsStr.data)

/-- Valid unit suffixes of Go time.ParseDuration. -/
def durUnitOk (u : List Char) : Bool :=
  u = ['n', 's'] ∨ u = ['u', 's'] ∨ u = ['µ', 's'] ∨ u = ['μ', 's'] ∨
  u = ['m', 's'] ∨ u = ['s'] ∨ u = ['m'] ∨ u = ['h']

/-- The group loop of Go time.ParseDuration (acceptance only): each group
is an integer part and/or a fractional part followed by a known unit; the
fuel bounds recursion and is never exhausted since every accepted group
consumes at least one character. -/
def durGroups : Nat → List Char → Bool
  | 0, _ => false
  | fuel + 1, cs =>
    let d := cs.takeWhile Char.isDigit
    let rest1 := cs.dropWhile Char.isDigit
    let fr : List Char × List Char :=
      match rest1 with
      | '.' :: r => (r.takeWhile Char.isDigit, r.dropWhile Char.isDigit)
      | _ => ([], rest1)
    if d = [] ∧ fr.1 = [] then false
    else
      let u := fr.2.takeWhile (fun c => ¬ c.isDigit ∧ c ≠ '.')
      let rest2 := fr.2.dropWhile (fun c => ¬ c.isDigit ∧ c ≠ '.')
      if ¬ durUnitOk u then false
      else if rest2 = [] then true
      else durGroups fuel rest2

/-- Go time.ParseDuration, acceptance only: optional sign, the literal
"0", or a nonempty sequence of number-unit groups.  The int64-nanosecond
overflow rejection of the Go parser is not modelled; every theorem below
evaluates this function only at the default durations "15m" and "1h",
far below that bound. -/
def parseDurationOk (s : String) : Bool :=
  let cs := match s.data with
    | '+' :: r => r
    | '-' :: r => r
    | r => r
  if cs = ['0'] then true
  else if cs = [] then false
  else durGroups cs.length cs

/-- The mutable Config built by config.Load, restricted to the fields the
claims touch. -/
structure ConfigM where
  url : String
  token : String
  policy : String
  interval : String
  schedule : String
  cooldown : String
  excludePatterns : List String
  apps : List AppConfig
deriving Repr, DecidableEq

/-- config loadFromEnv: each variable overrides only when set (os.Getenv
returns the empty string for an unset variable).  Note that PATROL_POLICY
is stored by a plain string cast with NO validation of the value. -/
def loadFromEnv (env : String → String) (c : ConfigM) : Except String ConfigM :=
  let c := if env ("COOLIFY_URL") ≠ "" then { c with url := env ("COOLIFY_URL") } else c
  let c := if env ("COOLIFY_TOKEN") ≠ "" then { c with token := env ("COOLIFY_TOKEN") } else c
  let c := if env ("PATROL_SCHEDULE") ≠ "" then { c with schedule := env ("PATROL_SCHEDULE") } else c
  let c := if env ("PATROL_INTERVAL") ≠ "" then { c with interval := env ("PATROL_INTERVAL") } else c
  let c := if env ("PATROL_POLICY") ≠ "" then { c with policy := env ("PATROL_POLICY") } else c
  let c := if env ("PATROL_COOLDOWN") ≠ "" then { c with cooldown := env ("PATROL_COOLDOWN") } else c
  let pats := (splitOnChar ',' (env ("PATROL_EXCLUDE_PATTERNS")).data).map
    (fun p => goTrimSpace (String.mk p))
  let c := if env ("PATROL_EXCLUDE_PATTERNS") ≠ "" then { c with excludePatterns := pats } else c
  if env ("PATROL_APPS") ≠ "" then
    match parseCompactApps (env ("PATROL_APPS")) with
    | Except.error e => Except.error ("invalid PATROL_APPS format: " ++ e)
    | Except.ok apps => Except.ok { c with apps := apps }
  else if env ("PATROL_AUTO_DISCOVER") = "true" then Except.ok { c with apps := [] }
  else Except.ok c

/-- config.Load("") — the environment-only path (no YAML file read):
loadFromEnv, then defaults, then the required-field and duration/schedule
validation, in the source's order.  cronOk stands for the robfig/cron
parser's acceptance (external dependency), consulted only when a
schedule is set. -/
def loadEnvOnly (cronOk : String → Bool) (env : String → String) : Except String ConfigM :=
  match loadFromEnv env
      { url := "", token := "", policy := "", interval := "", schedule := "",
        cooldown := "", excludePatterns := [], apps := [] } with
  | Except.error e => Except.error ("failed to load from environment: " ++ e)
  | Except.ok c0 =>
    let c0 := if c0.policy = "" then { c0 with policy := "auto-patch" } else c0
    let c0 := if c0.interval = "" then { c0 with interval := "15m" } else c0
    let c0 := if c0.cooldown = "" then { c0 with cooldown := "1h" } else c0
    let c0 := if c0.excludePatterns = [] then
        { c0 with excludePatterns := ["-alpha", "-beta", "-rc", "-dev", "-nightly"] }
      else c0
    if c0.url = "" then Except.error ("COOLIFY_URL is required")
    else if c0.token = "" then Except.error ("COOLIFY_TOKEN is required")
    else if c0.schedule ≠ "" then
      if ¬ cronOk c0.schedule then Except.error ("invalid PATROL_SCHEDULE cron syntax")
      else if ¬ parseDurationOk c0.cooldown then Except.error ("invalid PATROL_COOLDOWN")
      else Except.ok c0
    else if ¬ parseDurationOk c0.interval then Except.error ("invalid PATROL_INTERVAL")
    else if ¬ parseDurationOk c0.cooldown then Except.error ("invalid PATROL_COOLDOWN")
    else Except.ok c0

/-- A lookup-table environment: unset variables read as the empty string. -/
def envOf (pairs : List (String × String)) : String → String :=
  fun k => (((pairs.find? (fun p => p.1 = k)).map (fun p => p.2)).getD "")

/-! ## Orchestrator (internal/watcher/watcher.go)

One check cycle, with the two external collaborators (deployment
controller and registry) abstracted as per-application oracle answers:
`currentTag = none` models a GetApplication error (including NotFound),
`latestTag = none` a GetLatestTag error, `updateOk = false` a failure in
the UpdateApplication/RestartApplication sequence.  Times are Nats; the
cooldown argument is the already-parsed cooldown duration (watcher.go
discards the ParseDuration error, yielding 0 for an unparsable one). -/

/-- pkg/types AppStatus, with times as Nat. -/
structure AppStatus where
  name : String
  uuid : String
  image : String
  currentTag : String
  latestTag : String
  policy : String
  updateNeeded : Bool
  lastCheck : Nat
  lastUpdate : Option Nat
deriving Repr, DecidableEq

/-- Association-list model of a Go map (lookup). -/
def mlookup (m : List (String × α)) (k : String) : Option α :=
  (m.find? (fun p => p.1 = k)).map (fun p => p.2)

/-- Association-list model of a Go map (insert / overwrite). -/
def minsert (m : List (String × α)) (k : String) (v : α) : List (String × α) :=
  match m with
  | [] => [(k, v)]
  | (k2, v2) :: rest => if k2 = k then (k, v) :: rest else (k2, v2) :: minsert rest k v

/-- The Watcher's mutable state: appStatuses, lastUpdates, lastCheck. -/
structure WatcherState where
  appStatuses : List (String × AppStatus)
  lastUpdates : List (String × Nat)
  lastCheck : Nat
deriving Repr, DecidableEq

/-- Oracle answers of the external collaborators for one application's
check, plus the wall-clock instant of that check. -/
structure AppEnv where
  now : Nat
  currentTag : Option String
  latestTag : Option String
  updateOk : Bool
deriving Repr, DecidableEq

/-- watcher.go checkAndUpdateApp.  Returns none when the Go function
returns an error (the caller logs and continues); otherwise the new state
and whether an update was actually performed (dry-run performs none). -/
def checkAndUpdateApp (cooldown : Nat) (defaultPolicy : String) (dryRun : Bool)
    (env : AppEnv) (app : AppConfig) (s : WatcherState) : Option (WatcherState × Bool) :=
  match env.currentTag with
  | none => none
  | some currentTag =>
    let inCooldown : Bool := match mlookup s.lastUpdates app.uuid with
      | some t => decide (env.now - t < cooldown)
      | none => false
    if inCooldown then some (s, false)
    else
      match env.latestTag with
      | none => none
      | some latestTag =>
        let policy := getUpdatePolicy app defaultPolicy
        let decision := isUpdateAllowed currentTag latestTag policy app.pin
        let status : AppStatus :=
          { name := app.name, uuid := app.uuid, image := app.image,
            currentTag := currentTag, latestTag := latestTag, policy := policy,
            updateNeeded := decision.1, lastCheck := env.now, lastUpdate := none }
        if ¬ decision.1 then
          some ({ s with appStatuses := minsert s.appStatuses app.uuid status }, false)
        else if dryRun then
          some ({ s with appStatuses := minsert s.appStatuses app.uuid status }, false)
        else if env.updateOk then
          some ({ s with
              lastUpdates := minsert s.lastUpdates app.uuid env.now,
              appStatuses := minsert s.appStatuses app.uuid { status with lastUpdate := some env.now } },
            true)
        else none

/-- Observable events of one check cycle: one check event per application
(failed = the per-app error path; updated = an update was performed), and
the fixed 30-second sleeps the loop inserts. -/
inductive CycleEvent where
  | check (uuid : String) (failed : Bool) (updated : Bool)
  | sleep
deriving Repr, DecidableEq

/-- The application loop of watcher.go checkApplications: on a per-app
error, log and continue WITHOUT sleeping; after any other iteration that
is not the last, sleep the fixed updateDelay. -/
def runApps (cooldown : Nat) (defaultPolicy : String) (dryRun : Bool) :
    List (AppConfig × AppEnv) → WatcherState → WatcherState × List CycleEvent
  | [], s => (s, [])
  | (app, env) :: rest, s =>
    match checkAndUpdateApp cooldown defaultPolicy dryRun env app s with
    | none =>
      let r := runApps cooldown defaultPolicy dryRun rest s
      (r.1, CycleEvent.check app.uuid true false :: r.2)
    | some (s1, updated) =>
      let r := runApps cooldown defaultPolicy dryRun rest s1
      if rest.isEmpty then (r.1, CycleEvent.check app.uuid false updated :: r.2)
      else (r.1, CycleEvent.check app.uuid false updated :: CycleEvent.sleep :: r.2)

/-- watcher.go checkApplications: set lastCheck to the cycle's start
time, then run the loop over the resolved application list (paired here
with its oracle answers). -/
def checkApplications (cooldown : Nat) (defaultPolicy : String) (dryRun : Bool)
    (cycleStart : Nat) (apps : List AppConfig) (envs : List AppEnv) (s : WatcherState) :
    WatcherState × List CycleEvent :=
  runApps cooldown defaultPolicy dryRun (apps.zip envs) { s with lastCheck := cycleStart }

/-- Delay pacing actually implemented: every non-failed check except the
last one is followed by exactly one sleep; failed checks and the last
check are followed by none; sleeps occur nowhere else. -/
def wellPaced : List CycleEvent → Bool
  | [] => true
  | [CycleEvent.check _ _ _] => true
  | CycleEvent.check _ f _ :: CycleEvent.sleep :: rest => !f && !rest.isEmpty && wellPaced rest
  | CycleEvent.check _ f _ :: rest => f && wellPaced rest
  | _ => false

/-- The uuids of the check events of a trace, in order. -/
def checkedUuids (evs : List CycleEvent) : List String :=
  evs.filterMap (fun e =>
    match e with
    | CycleEvent.check u _ _ => some u
    | CycleEvent.sleep => none)

/-- "first difference decides" composition used to restate Version.Compare. -/
def cmpThen (x y : Int) : Int :=
  if x ≠ 0 then x else y

def intCmp (x y : Int) : Int :=
  if x < y then -1 else if y < x then 1 else 0

/-- The prerelease step of Version.Compare: no prerelease beats a
prerelease; two prereleases compare byte-wise; none means equal. -/
def preCmp (p q : String) : Int :=
  if p = "" ∧ q ≠ "" then 1
  else if p ≠ "" ∧ q = "" then -1
  else if p ≠ "" ∧ q ≠ "" then strCompare p q
  else 0

/-! ### The accepted version-string language (C9)

`SpecForm` renders the spec's description of the Comparator's accepted
inputs — "an optional leading v, then exactly three dot-separated
non-negative integer components, optionally followed by -<prerelease>
and/or +<build>" — with prerelease/build identifiers over the
alphanumeric/hyphen/dot alphabet.  It is written from the spec's words to
be compared with the parser embedded from the source. -/

def digitsStr (l : List Char) : Prop :=
  l ≠ [] ∧ ∀ c ∈ l, c.isDigit = true

def identStr (l : List Char) : Prop :=
  l ≠ [] ∧ ∀ c ∈ l, semverIdentChar c = true

/-- The optional "-<prerelease>" and/or "+<build>" suffix of the spec. -/
def TailForm (t : List Char) : Prop :=
  t = [] ∨
  (∃ pre, identStr pre ∧ t = '-' :: pre) ∨
  (∃ b, identStr b ∧ t = '+' :: b) ∨
  (∃ pre b, identStr pre ∧ identStr b ∧ t = '-' :: (pre ++ '+' :: b))

/-- A string of the spec's accepted form. -/
def SpecForm (s : String) : Prop :=
  ∃ vp d1 d2 d3 t : List Char,
    (vp = [] ∨ vp = ['v']) ∧ digitsStr d1 ∧ digitsStr d2 ∧ digitsStr d3 ∧ TailForm t ∧
    s.data = vp ++ (d1 ++ '.' :: (d2 ++ '.' :: (d3 ++ t)))

/-! ## Theorems -/

/-! Sanity evaluations mirroring the repository's own test vectors. -/

example : getLatestTag ["1.2.3", "stable"] [] = Except.ok ("stable") := rfl

example : findLatestVersion ["1.2.3", "stable"] = Except.ok ("1.2.3") := rfl

example : findLatestVersion ["1.0.0", "latest", "stable", "1.1.0"] = Except.ok ("1.1.0") := rfl

example : findLatestVersion ["latest", "stable", "edge"] = Except.ok ("stable") := rfl

example : findLatestVersion ["1.0.0", "1.0.1-alpha", "1.0.2-beta"] = Except.ok ("1.0.0") := rfl

example : getLatestTag ["1.0.0", "1.0.1-alpha", "1.0.2"] ["-alpha"] = Except.ok ("1.0.2") := rfl

example : parseSimpleVersion "1.2.rc3" = some (1, 2, 3) := by decide

example : parseCompactApps "n8n:abc123:n8nio/n8n" =
    Except.ok [{ name := "n8n", uuid := "abc123", image := "n8nio/n8n", policy := "", pin := "" }] := by
  rfl

example : parseCompactApps "postgres:def456:postgres:auto-patch:17" =
    Except.ok [{ name := "postgres", uuid := "def456", image := "postgres", policy := "auto-patch", pin := "17" }] := by
  rfl

example : (parseCompactApps "n8n:abc123").isOk = false := by rfl

example : (parseCompactApps "n8n:abc123:n8nio/n8n:invalid-policy").isOk = false := by rfl

example : (parseCompactApps "postgres:def456:postgres:auto-patch:not-a-number").isOk = false := by rfl

example : (parseCompactApps "n8n:abc123:n8nio/n8n;;postgres:def456:postgres").map List.length = Except.ok 2 := by rfl

example : parseDurationOk "15m" = true := by rfl

example : parseDurationOk "1h" = true := by rfl

example : parseDurationOk "invalid" = false := by rfl

example :
    (loadEnvOnly (fun _ => false)
      (envOf [("COOLIFY_URL", "http://localhost:8000"), ("COOLIFY_TOKEN", "test-token"),
              ("PATROL_POLICY", "banana"), ("PATROL_AUTO_DISCOVER", "true")])).map (fun c => c.policy) =
    Except.ok "banana" := by rfl

example : parseVersion "1.2.3" =
    some { major := 1, minor := 2, patch := 3, prerelease := "", build := "", original := "1.2.3" } := by
  decide

example : parseVersion "v2.0.1" =
    some { major := 2, minor := 0, patch := 1, prerelease := "", build := "", original := "v2.0.1" } := by
  decide

example : parseVersion "1.0.0-alpha.1" =
    some { major := 1, minor := 0, patch := 0, prerelease := "alpha.1", build := "", original := "1.0.0-alpha.1" } := by
  decide

example : parseVersion "1.0.0+build.1" =
    some { major := 1, minor := 0, patch := 0, prerelease := "", build := "build.1", original := "1.0.0+build.1" } := by
  decide

example : parseVersion "latest" = none := by decide

example : parseVersion "not-a-version" = none := by decide

example : parseVersion "1.2.3.4" = none := by decide

example : isUpdateAllowed "1.2.3" "1.2.4" "auto-patch" "" = (true, "patch update allowed") := by
  decide

example : isUpdateAllowed "1.2.3" "1.3.0" "auto-patch" "" =
    (false, "auto-patch policy only allows patch updates") := by decide

example : isUpdateAllowed "17.1.0" "18.0.0" "auto-all" "17" =
    (false, "update would cross pin boundary (pinned to major 17)") := by decide

example : isUpdateAllowed "latest" "stable" "auto-all" "" =
    (true, "non-semver update (auto-all policy)") := by decide

example : isUpdateAllowed "1.2.3" "1.2.3" "auto-all" "" =
    (false, "latest version is not newer than current") := by decide

example : goAtoi "17" = some 17 := by decide

example : goAtoi "99999999999999999999" = none := by decide

example : isUpdateAllowed "1.0.0" "9223372036854775807.0.0" "auto-all" "99999999999999999999" =
    (false, "invalid pin value: 99999999999999999999") := by rfl

example : (parseCompactApps "postgres:def456:postgres:auto-patch:99999999999999999999").isOk =
    false := by rfl


theorem goAtoi_empty : goAtoi "" = none := rfl

/-- Reduction of IsUpdateAllowed once both tags parse. -/
theorem isUpdateAllowed_parsed (current latest policy pin : String) (cv lv : Version)
    (hc : parseVersion current = some cv) (hl : parseVersion latest = some lv) :
    isUpdateAllowed current latest policy pin =
      (if lv.compare cv ≤ 0 then (false, "latest version is not newer than current")
       else if pin ≠ "" then
         match goAtoi pin with
         | none => (false, "invalid pin value: " ++ pin)
         | some pinMajor =>
           if lv.major ≠ pinMajor then
             (false, "update would cross pin boundary (pinned to major " ++ toString pinMajor ++ ")")
           else applyPolicy cv lv policy
       else applyPolicy cv lv policy) := by
  unfold isUpdateAllowed
  rw [hc, hl]

/-- Reduction of IsUpdateAllowed when additionally the candidate is newer
and the pin constraint passes (unset, or numeric and equal to the
candidate major). -/
theorem isUpdateAllowed_pin_ok (current latest policy pin : String) (cv lv : Version)
    (hc : parseVersion current = some cv) (hl : parseVersion latest = some lv)
    (hgt : 0 < lv.compare cv)
    (hpin : pin = "" ∨ ∃ p : Int, goAtoi pin = some p ∧ lv.major = p) :
    isUpdateAllowed current latest policy pin = applyPolicy cv lv policy := by
  rw [isUpdateAllowed_parsed current latest policy pin cv lv hc hl]
  rw [if_neg (by omega)]
  rcases hpin with h | ⟨p, hp, hm⟩
  · subst h
    rw [if_neg (by simp)]
  · have hne : pin ≠ "" := by
      intro h
      subst h
      rw [goAtoi_empty] at hp
      cases hp
    rw [if_pos hne, hp]
    simp [hm]

/-- C1: evaluation of the registry tag selection at the failing input.
With tags ["1.2.3", "stable"] and no exclusions, a surviving tag
("1.2.3") parses as a version, yet GetLatestTag selects the unversioned
alias "stable" — compareVersions falls back to raw lexicographic
comparison whenever either side is not a simple version, so the alias
shadows the version tag.  The semver package's own FindLatestVersion
(exercised by TestFindLatestVersion's mixed semver and non-semver case)
selects "1.2.3" as the claim requires. -/
theorem c1_getLatestTag_alias_shadows_versions :
    getLatestTag ["1.2.3", "stable"] [] = Except.ok ("stable") ∧
    (parseVersion "1.2.3").isSome = true ∧
    (parseVersion "stable").isSome = false ∧
    findLatestVersion ["1.2.3", "stable"] = Except.ok ("1.2.3") :=
  ⟨rfl, rfl, rfl, rfl⟩

/-- C6: when both tags parse, a candidate that is not strictly newer is
denied with the not-newer reason for EVERY policy and EVERY pin string
(the comparison check precedes the pin and policy logic); when the
candidate is newer but a numeric pin differs from the candidate's major,
the update is denied with the pin-boundary reason regardless of policy. -/
theorem c6_not_newer_then_pin_boundary (current latest policy pin : String) (cv lv : Version)
    (hc : parseVersion current = some cv) (hl : parseVersion latest = some lv) :
    (lv.compare cv ≤ 0 →
      isUpdateAllowed current latest policy pin =
        (false, "latest version is not newer than current")) ∧
    (0 < lv.compare cv → ∀ p : Int, goAtoi pin = some p → lv.major ≠ p →
      isUpdateAllowed current latest policy pin =
        (false, "update would cross pin boundary (pinned to major " ++ toString p ++ ")")) := by
  rw [isUpdateAllowed_parsed current latest policy pin cv lv hc hl]
  constructor
  · intro hle
    rw [if_pos hle]
  · intro hgt p hp hne
    have hpin : pin ≠ "" := by
      intro h
      subst h
      rw [goAtoi_empty] at hp
      cases hp
    rw [if_neg (by omega), if_pos hpin, hp]
    simp [hne]

theorem c6_witness :
    isUpdateAllowed "1.2.3" "1.2.3" "totally-unknown-policy" "not-a-pin" =
      (false, "latest version is not newer than current") ∧
    isUpdateAllowed "17.1.0" "18.0.0" "auto-all" "17" =
      (false, "update would cross pin boundary (pinned to major 17)") := by
  constructor
  · exact (c6_not_newer_then_pin_boundary "1.2.3" "1.2.3" "totally-unknown-policy" "not-a-pin"
      { major := 1, minor := 2, patch := 3, prerelease := "", build := "", original := "1.2.3" }
      { major := 1, minor := 2, patch := 3, prerelease := "", build := "", original := "1.2.3" }
      rfl rfl).1 (by decide)
  · exact (c6_not_newer_then_pin_boundary "17.1.0" "18.0.0" "auto-all" "17"
      { major := 17, minor := 1, patch := 0, prerelease := "", build := "", original := "17.1.0" }
      { major := 18, minor := 0, patch := 0, prerelease := "", build := "", original := "18.0.0" }
      rfl rfl).2 (by decide) 17 (by decide) (by decide)

/-- C7: with both tags parsed, the candidate strictly newer, and the pin
constraint passing (unset, or numeric and matching the candidate major):
notify-only always denies; auto-patch allows exactly when major and minor
are unchanged; auto-minor allows exactly when major is unchanged;
auto-all allows unconditionally. -/
theorem c7_policy_matrix (current latest pin : String) (cv lv : Version)
    (hc : parseVersion current = some cv) (hl : parseVersion latest = some lv)
    (hgt : 0 < lv.compare cv)
    (hpin : pin = "" ∨ ∃ p : Int, goAtoi pin = some p ∧ lv.major = p) :
    isUpdateAllowed current latest "notify-only" pin =
      (false, "notify-only policy - update available but not applied") ∧
    (lv.major = cv.major ∧ lv.minor = cv.minor →
      isUpdateAllowed current latest "auto-patch" pin = (true, "patch update allowed")) ∧
    (¬ (lv.major = cv.major ∧ lv.minor = cv.minor) →
      isUpdateAllowed current latest "auto-patch" pin =
        (false, "auto-patch policy only allows patch updates")) ∧
    (lv.major = cv.major →
      isUpdateAllowed current latest "auto-minor" pin = (true, "minor/patch update allowed")) ∧
    (lv.major ≠ cv.major →
      isUpdateAllowed current latest "auto-minor" pin =
        (false, "auto-minor policy only allows minor and patch updates")) ∧
    isUpdateAllowed current latest "auto-all" pin = (true, "auto-all policy allows all updates") := by
  refine ⟨?_, ?_, ?_, ?_, ?_, ?_⟩
  · rw [isUpdateAllowed_pin_ok current latest "notify-only" pin cv lv hc hl hgt hpin]
    rfl
  · intro h
    rw [isUpdateAllowed_pin_ok current latest "auto-patch" pin cv lv hc hl hgt hpin]
    unfold applyPolicy
    rw [if_neg (by decide), if_pos rfl, if_neg (by simp [h.1, h.2])]
  · intro h
    rw [isUpdateAllowed_pin_ok current latest "auto-patch" pin cv lv hc hl hgt hpin]
    unfold applyPolicy
    rw [if_neg (by decide), if_pos rfl, if_pos (by tauto)]
  · intro h
    rw [isUpdateAllowed_pin_ok current latest "auto-minor" pin cv lv hc hl hgt hpin]
    unfold applyPolicy
    rw [if_neg (by decide), if_neg (by decide), if_pos rfl, if_neg (by simp [h])]
  · intro h
    rw [isUpdateAllowed_pin_ok current latest "auto-minor" pin cv lv hc hl hgt hpin]
    unfold applyPolicy
    rw [if_neg (by decide), if_neg (by decide), if_pos rfl, if_pos h]
  · rw [isUpdateAllowed_pin_ok current latest "auto-all" pin cv lv hc hl hgt hpin]
    rfl

theorem c7_witness :
    isUpdateAllowed "1.2.3" "1.2.4" "auto-patch" "" = (true, "patch update allowed") ∧
    isUpdateAllowed "1.2.3" "1.3.0" "auto-patch" "" =
      (false, "auto-patch policy only allows patch updates") ∧
    isUpdateAllowed "1.2.3" "1.3.0" "auto-minor" "" = (true, "minor/patch update allowed") ∧
    isUpdateAllowed "1.2.3" "2.0.0" "auto-minor" "" =
      (false, "auto-minor policy only allows minor and patch updates") ∧
    isUpdateAllowed "1.2.3" "2.0.0" "auto-all" "" = (true, "auto-all policy allows all updates") ∧
    isUpdateAllowed "1.2.3" "1.2.4" "notify-only" "" =
      (false, "notify-only policy - update available but not applied") := by
  have h124 := c7_policy_matrix "1.2.3" "1.2.4" ""
    { major := 1, minor := 2, patch := 3, prerelease := "", build := "", original := "1.2.3" }
    { major := 1, minor := 2, patch := 4, prerelease := "", build := "", original := "1.2.4" }
    rfl rfl (by decide) (Or.inl rfl)
  have h130 := c7_policy_matrix "1.2.3" "1.3.0" ""
    { major := 1, minor := 2, patch := 3, prerelease := "", build := "", original := "1.2.3" }
    { major := 1, minor := 3, patch := 0, prerelease := "", build := "", original := "1.3.0" }
    rfl rfl (by decide) (Or.inl rfl)
  have h200 := c7_policy_matrix "1.2.3" "2.0.0" ""
    { major := 1, minor := 2, patch := 3, prerelease := "", build := "", original := "1.2.3" }
    { major := 2, minor := 0, patch := 0, prerelease := "", build := "", original := "2.0.0" }
    rfl rfl (by decide) (Or.inl rfl)
  exact ⟨h124.2.1 (by decide), h130.2.2.1 (by decide), h130.2.2.2.1 (by decide),
    h200.2.2.2.2.1 (by decide), h200.2.2.2.2.2, h124.1⟩

/-- C8: when the current tag does not parse, only auto-all may allow,
exactly when the candidate text differs; every other policy denies with
the non-semver opt-in reason.  When the current tag parses and the
candidate does not, every policy denies with the candidate-not-versioned
reason.  In particular deciding latest → stable under auto-all with no
pin is allowed. -/
theorem c8_nonsemver_handling (current latest pin : String) :
    (parseVersion current = none →
      (isUpdateAllowed current latest "auto-all" pin =
        (current != latest, "non-semver update (auto-all policy)") ∧
       ∀ policy, policy ≠ "auto-all" →
         isUpdateAllowed current latest policy pin =
           (false, "non-semver tag, policy " ++ policy ++ " requires explicit semver"))) ∧
    (∀ cv, parseVersion current = some cv → parseVersion latest = none →
      ∀ policy, isUpdateAllowed current latest policy pin =
        (false, "latest tag " ++ latest ++ " is not semver")) ∧
    isUpdateAllowed "latest" "stable" "auto-all" "" =
      (true, "non-semver update (auto-all policy)") := by
  refine ⟨?_, ?_, rfl⟩
  · intro hc
    constructor
    · unfold isUpdateAllowed
      rw [hc]
      simp
    · intro policy hpol
      unfold isUpdateAllowed
      rw [hc]
      simp [hpol]
  · intro cv hc hl policy
    unfold isUpdateAllowed
    rw [hc, hl]

theorem c8_witness :
    isUpdateAllowed "latest" "1.2.3" "auto-patch" "" =
      (false, "non-semver tag, policy auto-patch requires explicit semver") ∧
    isUpdateAllowed "1.2.3" "stable" "auto-minor" "" =
      (false, "latest tag stable is not semver") := by
  constructor
  · exact ((c8_nonsemver_handling "latest" "1.2.3" "").1 rfl).2 "auto-patch" (by decide)
  · exact (c8_nonsemver_handling "1.2.3" "stable" "").2.1
      { major := 1, minor := 2, patch := 3, prerelease := "", build := "", original := "1.2.3" }
      rfl rfl "auto-minor"

/-! ### Order-theoretic properties of the Comparator (C5) -/

theorem listCompare_refl : ∀ l : List Char, listCompare l l = 0 := by
  intro l
  induction l with
  | nil => rfl
  | cons a as ih => simp [listCompare, ih]

theorem listCompare_swap : ∀ l1 l2 : List Char, listCompare l1 l2 = - listCompare l2 l1 := by
  intro l1
  induction l1 with
  | nil =>
    intro l2
    cases l2 <;> rfl
  | cons a as ih =>
    intro l2
    cases l2 with
    | nil => rfl
    | cons b bs =>
      rcases lt_trichotomy a b with h | h | h
      · simp [listCompare, h, not_lt_of_lt h]
      · subst h
        simp [listCompare, ih bs]
      · simp [listCompare, h, not_lt_of_lt h]

theorem listCompare_eq_zero_iff : ∀ l1 l2 : List Char, listCompare l1 l2 = 0 ↔ l1 = l2 := by
  intro l1
  induction l1 with
  | nil =>
    intro l2
    cases l2 <;> simp [listCompare]
  | cons a as ih =>
    intro l2
    cases l2 with
    | nil => simp [listCompare]
    | cons b bs =>
      rcases lt_trichotomy a b with h | h | h
      · simp [listCompare, h, ne_of_lt h]
      · subst h
        simp [listCompare, ih bs]
      · simp [listCompare, h, not_lt_of_lt h, (ne_of_lt h).symm]

theorem listCompare_le_trans : ∀ l1 l2 l3 : List Char,
    listCompare l1 l2 ≤ 0 → listCompare l2 l3 ≤ 0 → listCompare l1 l3 ≤ 0 := by
  intro l1
  induction l1 with
  | nil =>
    intro l2 l3 _ _
    cases l3 <;> simp [listCompare]
  | cons a as ih =>
    intro l2 l3 h1 h2
    cases l2 with
    | nil => simp [listCompare] at h1
    | cons b bs =>
      cases l3 with
      | nil => simp [listCompare] at h2
      | cons c cs =>
        simp only [listCompare] at h1 h2 ⊢
        rcases lt_trichotomy a b with hab | hab | hab
        · rcases lt_trichotomy b c with hbc | hbc | hbc
          · rw [if_pos (lt_trans hab hbc)]
            omega
          · subst hbc
            rw [if_pos hab]
            omega
          · rw [if_neg (not_lt_of_lt hbc), if_pos hbc] at h2
            omega
        · subst hab
          rcases lt_trichotomy a c with hac | hac | hac
          · rw [if_pos hac]
            omega
          · subst hac
            rw [if_neg (lt_irrefl a), if_neg (lt_irrefl a)] at h1 h2 ⊢
            exact ih bs cs h1 h2
          · rw [if_neg (not_lt_of_lt hac), if_pos hac] at h2
            omega
        · rw [if_neg (not_lt_of_lt hab), if_pos hab] at h1
          omega

theorem compare_eq_cmpChain (a b : Version) :
    a.compare b =
      cmpThen (intCmp a.major b.major)
        (cmpThen (intCmp a.minor b.minor)
          (cmpThen (intCmp a.patch b.patch) (preCmp a.prerelease b.prerelease))) := by
  unfold Version.compare cmpThen intCmp preCmp
  by_cases h1 : a.major = b.major
  · by_cases h2 : a.minor = b.minor
    · by_cases h3 : a.patch = b.patch
      · simp [h1, h2, h3]
      · by_cases hlt : a.patch < b.patch <;> simp [h1, h2, h3, hlt] <;> omega
    · by_cases hlt : a.minor < b.minor <;> simp [h1, h2, hlt] <;> omega
  · by_cases hlt : a.major < b.major <;> simp [h1, hlt] <;> omega

theorem preCmp_swap (p q : String) : preCmp p q = - preCmp q p := by
  unfold preCmp strCompare
  by_cases hp : p = "" <;> by_cases hq : q = "" <;>
    simp [hp, hq, listCompare_swap p.data q.data]

theorem preCmp_eq_zero_iff (p q : String) : preCmp p q = 0 ↔ p = q := by
  unfold preCmp strCompare
  by_cases hp : p = "" <;> by_cases hq : q = ""
  · simp [hp, hq]
  · simp [hp, hq, eq_comm]
  · simp [hp, hq]
  · have hdata : p.data = q.data ↔ p = q := by
      constructor
      · intro h
        cases p
        cases q
        exact congrArg String.mk h
      · intro h
        rw [h]
    simp [hp, hq, listCompare_eq_zero_iff, hdata]

theorem preCmp_le_trans (p q r : String) (h1 : preCmp p q ≤ 0) (h2 : preCmp q r ≤ 0) :
    preCmp p r ≤ 0 := by
  unfold preCmp at h1 h2 ⊢
  by_cases hp : p = "" <;> by_cases hq : q = "" <;> by_cases hr : r = "" <;>
    simp [hp, hq, hr] at h1 h2 ⊢
  exact listCompare_le_trans p.data q.data r.data h1 h2

theorem compare_le_iff (a b : Version) :
    a.compare b ≤ 0 ↔
      (a.major < b.major ∨ (a.major = b.major ∧
        (a.minor < b.minor ∨ (a.minor = b.minor ∧
          (a.patch < b.patch ∨ (a.patch = b.patch ∧
            preCmp a.prerelease b.prerelease ≤ 0)))))) := by
  rw [compare_eq_cmpChain]
  unfold cmpThen intCmp
  split_ifs <;> omega

theorem compare_zero_iff (a b : Version) :
    a.compare b = 0 ↔
      a.major = b.major ∧ a.minor = b.minor ∧ a.patch = b.patch ∧
        a.prerelease = b.prerelease := by
  rw [compare_eq_cmpChain, ← preCmp_eq_zero_iff a.prerelease b.prerelease]
  unfold cmpThen intCmp
  split_ifs <;> constructor <;> intro h <;> first | omega | exact h.elim | trivial

theorem intCmp_swap (x y : Int) : intCmp x y = - intCmp y x := by
  unfold intCmp
  split_ifs <;> omega

theorem cmpThen_neg (x y : Int) : cmpThen (-x) (-y) = - cmpThen x y := by
  unfold cmpThen
  split_ifs <;> omega

theorem compare_swap (a b : Version) : a.compare b = - b.compare a := by
  rw [compare_eq_cmpChain a b, compare_eq_cmpChain b a]
  rw [intCmp_swap a.major b.major, intCmp_swap a.minor b.minor,
    intCmp_swap a.patch b.patch, preCmp_swap a.prerelease b.prerelease]
  rw [cmpThen_neg, cmpThen_neg, cmpThen_neg]

theorem compare_le_trans (a b c : Version)
    (h1 : a.compare b ≤ 0) (h2 : b.compare c ≤ 0) : a.compare c ≤ 0 := by
  rw [compare_le_iff] at h1 h2 ⊢
  rcases h1 with h1 | ⟨e1, h1⟩
  · rcases h2 with h2 | ⟨e2, h2⟩
    · exact Or.inl (lt_trans h1 h2)
    · exact Or.inl (by omega)
  · rcases h2 with h2 | ⟨e2, h2⟩
    · exact Or.inl (by omega)
    · refine Or.inr ⟨by omega, ?_⟩
      rcases h1 with h1 | ⟨f1, h1⟩
      · rcases h2 with h2 | ⟨f2, h2⟩
        · exact Or.inl (lt_trans h1 h2)
        · exact Or.inl (by omega)
      · rcases h2 with h2 | ⟨f2, h2⟩
        · exact Or.inl (by omega)
        · refine Or.inr ⟨by omega, ?_⟩
          rcases h1 with h1 | ⟨g1, h1⟩
          · rcases h2 with h2 | ⟨g2, h2⟩
            · exact Or.inl (lt_trans h1 h2)
            · exact Or.inl (by omega)
          · rcases h2 with h2 | ⟨g2, h2⟩
            · exact Or.inl (by omega)
            · exact Or.inr ⟨by omega, preCmp_le_trans _ _ _ h1 h2⟩

/-- C5: Version.Compare is a total order on parsed versions (stated here
for all Version values, which includes every parsed one): it is reflexive;
it is antisymmetric with respect to the data that participates in the
ordering — comparing equal means having identical major, minor, patch and
prerelease, so on that ordering key compare-equal implies equal; it is
transitive; it always answers with the exact negation of the reversed
comparison; the first differing numeric component (major, then minor,
then patch) decides; on equal numeric components a version without a
prerelease is greater, two prereleases compare byte-wise
lexicographically; and the build and original fields never participate
(versions with identical ordering keys compare identically). -/
theorem c5_compare_total_order :
    (∀ a : Version, a.compare a = 0) ∧
    (∀ a b : Version, a.compare b = - b.compare a) ∧
    (∀ a b : Version, a.compare b = 0 ↔
      a.major = b.major ∧ a.minor = b.minor ∧ a.patch = b.patch ∧
        a.prerelease = b.prerelease) ∧
    (∀ a b c : Version, a.compare b ≤ 0 → b.compare c ≤ 0 → a.compare c ≤ 0) ∧
    (∀ a b : Version, a.major ≠ b.major →
      a.compare b = (if a.major < b.major then -1 else 1)) ∧
    (∀ a b : Version, a.major = b.major → a.minor ≠ b.minor →
      a.compare b = (if a.minor < b.minor then -1 else 1)) ∧
    (∀ a b : Version, a.major = b.major → a.minor = b.minor → a.patch ≠ b.patch →
      a.compare b = (if a.patch < b.patch then -1 else 1)) ∧
    (∀ a b : Version, a.major = b.major → a.minor = b.minor → a.patch = b.patch →
      (a.prerelease = "" → b.prerelease ≠ "" → a.compare b = 1) ∧
      (a.prerelease ≠ "" → b.prerelease ≠ "" →
        a.compare b = strCompare a.prerelease b.prerelease)) ∧
    (∀ a b : Version, ∀ build1 build2 orig1 orig2 : String,
      Version.compare { a with build := build1, original := orig1 }
          { b with build := build2, original := orig2 } = a.compare b) := by
  refine ⟨?_, compare_swap, compare_zero_iff, compare_le_trans, ?_, ?_, ?_, ?_, ?_⟩
  · intro a
    exact (compare_zero_iff a a).mpr ⟨rfl, rfl, rfl, rfl⟩
  · intro a b h
    unfold Version.compare
    rw [if_pos h]
  · intro a b h1 h2
    unfold Version.compare
    rw [if_neg (by simp [h1]), if_pos h2]
  · intro a b h1 h2 h3
    unfold Version.compare
    rw [if_neg (by simp [h1]), if_neg (by simp [h2]), if_pos h3]
  · intro a b h1 h2 h3
    constructor
    · intro hp hq
      unfold Version.compare
      rw [if_neg (by simp [h1]), if_neg (by simp [h2]), if_neg (by simp [h3]),
        if_pos ⟨hp, hq⟩]
    · intro hp hq
      unfold Version.compare
      rw [if_neg (by simp [h1]), if_neg (by simp [h2]), if_neg (by simp [h3]),
        if_neg (by simp [hp]), if_neg (by simp [hq]), if_pos ⟨hp, hq⟩]
  · intro a b build1 build2 orig1 orig2
    rfl

theorem c5_witness :
    Version.compare { major := 1, minor := 0, patch := 0, prerelease := "alpha", build := "", original := "1.0.0-alpha" }
        { major := 1, minor := 0, patch := 1, prerelease := "", build := "", original := "1.0.1" } ≤ 0 ∧
    Version.compare { major := 1, minor := 0, patch := 0, prerelease := "", build := "", original := "1.0.0" }
        { major := 1, minor := 0, patch := 0, prerelease := "alpha", build := "", original := "1.0.0-alpha" } = 1 ∧
    Version.compare { major := 2, minor := 0, patch := 0, prerelease := "", build := "", original := "2.0.0" }
        { major := 10, minor := 0, patch := 0, prerelease := "", build := "", original := "10.0.0" } = -1 := by
  refine ⟨?_, ?_, ?_⟩
  · exact c5_compare_total_order.2.2.2.1
      { major := 1, minor := 0, patch := 0, prerelease := "alpha", build := "", original := "1.0.0-alpha" }
      { major := 1, minor := 0, patch := 0, prerelease := "", build := "", original := "1.0.0" }
      { major := 1, minor := 0, patch := 1, prerelease := "", build := "", original := "1.0.1" }
      (by decide) (by decide)
  · exact (c5_compare_total_order.2.2.2.2.2.2.2.1
      { major := 1, minor := 0, patch := 0, prerelease := "", build := "", original := "1.0.0" }
      { major := 1, minor := 0, patch := 0, prerelease := "alpha", build := "", original := "1.0.0-alpha" }
      rfl rfl rfl).1 rfl (by decide)
  · have h := c5_compare_total_order.2.2.2.2.1
      { major := 2, minor := 0, patch := 0, prerelease := "", build := "", original := "2.0.0" }
      { major := 10, minor := 0, patch := 0, prerelease := "", build := "", original := "10.0.0" }
      (by decide)
    rw [h]
    decide

/-! ### Configuration-validation properties (C4) -/

theorem splitOnChar_ne_nil (sep : Char) (cs : List Char) : splitOnChar sep cs ≠ [] := by
  cases cs with
  | nil => simp [splitOnChar]
  | cons c rest =>
    unfold splitOnChar
    rcases h : splitOnChar sep rest with _ | ⟨hd, tl⟩
    · simp
    · by_cases hc : c = sep <;> simp [hc]

theorem splitOnChar_cons (sep c : Char) (l : List Char) :
    splitOnChar sep (c :: l) =
      if c = sep then [] :: splitOnChar sep l
      else (c :: (splitOnChar sep l).headI) :: (splitOnChar sep l).tail := by
  rcases h : splitOnChar sep l with _ | ⟨hd, tl⟩
  · exact absurd h (splitOnChar_ne_nil sep l)
  · unfold splitOnChar
    rw [h]
    by_cases hc : c = sep <;> simp [hc]

theorem splitOnChar_sep_free (sep : Char) (cs : List Char) (h : ∀ c ∈ cs, c ≠ sep) :
    splitOnChar sep cs = [cs] := by
  induction cs with
  | nil => rfl
  | cons c rest ih =>
    rw [splitOnChar_cons, if_neg (h c (List.mem_cons_self c rest)),
      ih (fun x hx => h x (List.mem_cons_of_mem c hx))]
    rfl

theorem dropWhile_eq_self_of (p : Char → Bool) (l : List Char)
    (h : ∀ c ∈ l, p c = false) : l.dropWhile p = l := by
  cases l with
  | nil => rfl
  | cons c rest => simp [List.dropWhile, h c (List.mem_cons_self c rest)]

theorem goTrimSpace_mk_of (l : List Char) (h : ∀ c ∈ l, c.isWhitespace = false) :
    goTrimSpace (String.mk l) = String.mk l := by
  unfold goTrimSpace
  rw [show (String.mk l).data = l from rfl]
  rw [dropWhile_eq_self_of _ l h,
    dropWhile_eq_self_of _ l.reverse (fun c hc => h c (List.mem_reverse.mp hc)),
    List.reverse_reverse]

theorem mk_data (s : String) : String.mk s.data = s := by
  cases s
  rfl

theorem parseCompactApps_rejects_bad_policy (pol : String) (hne : pol.data ≠ [])
    (hfree : ∀ c ∈ pol.data, c ≠ ':' ∧ c ≠ ';' ∧ c.isWhitespace = false)
    (h1 : pol ≠ "auto-patch") (h2 : pol ≠ "auto-minor") (h3 : pol ≠ "auto-all")
    (h4 : pol ≠ "notify-only") :
    (parseCompactApps ("n8n:abc123:n8nio/n8n:" ++ pol)).isOk = false := by
  have hdata : ("n8n:abc123:n8nio/n8n:" ++ pol).data =
      "n8n:abc123:n8nio/n8n:".data ++ pol.data := String.data_append _ _
  have hprews : ∀ c ∈ "n8n:abc123:n8nio/n8n:".data, c.isWhitespace = false := by decide
  have hpresemi : ∀ c ∈ "n8n:abc123:n8nio/n8n:".data, c ≠ ';' := by decide
  have hnows : ∀ c ∈ "n8n:abc123:n8nio/n8n:".data ++ pol.data, c.isWhitespace = false := by
    intro c hc
    rcases List.mem_append.mp hc with hc | hc
    · exact hprews c hc
    · exact (hfree c hc).2.2
  have hsplit1 : splitOnChar ';' ("n8n:abc123:n8nio/n8n:".data ++ pol.data) =
      ["n8n:abc123:n8nio/n8n:".data ++ pol.data] := by
    apply splitOnChar_sep_free
    intro c hc
    rcases List.mem_append.mp hc with hc | hc
    · exact hpresemi c hc
    · exact (hfree c hc).2.1
  have hpolfree : splitOnChar ':' pol.data = [pol.data] :=
    splitOnChar_sep_free ':' pol.data (fun c hc => (hfree c hc).1)
  have hsplit2 : splitOnChar ':' ("n8n:abc123:n8nio/n8n:".data ++ pol.data) =
      ["n8n".data, "abc123".data, "n8nio/n8n".data, pol.data] := by
    simp only [show "n8n:abc123:n8nio/n8n:".data =
      ['n', '8', 'n', ':', 'a', 'b', 'c', '1', '2', '3', ':',
       'n', '8', 'n', 'i', 'o', '/', 'n', '8', 'n', ':'] by decide]
    simp [List.cons_append, splitOnChar_cons, hpolfree]
  have htrim : goTrimSpace (String.mk ("n8n:abc123:n8nio/n8n:".data ++ pol.data)) =
      String.mk ("n8n:abc123:n8nio/n8n:".data ++ pol.data) :=
    goTrimSpace_mk_of _ hnows
  have htrimpol : goTrimSpace (String.mk pol.data) = pol := by
    rw [goTrimSpace_mk_of pol.data (fun c hc => (hfree c hc).2.2), mk_data]
  have hmkne : String.mk ("n8n:abc123:n8nio/n8n:".data ++ pol.data) ≠ "" := by
    intro hh
    have := congrArg String.data hh
    simp at this
  unfold parseCompactApps
  rw [hdata, hsplit1]
  unfold parseCompactAppsAux
  rw [show String.mk ("n8n:abc123:n8nio/n8n:".data ++ pol.data) =
      String.mk (("n8n:abc123:n8nio/n8n:".data ++ pol.data)) from rfl]
  rw [htrim, if_neg hmkne]
  rw [show (String.mk ("n8n:abc123:n8nio/n8n:".data ++ pol.data)).data =
      "n8n:abc123:n8nio/n8n:".data ++ pol.data from rfl]
  rw [hsplit2]
  simp only [htrimpol]
  rw [if_neg hne]
  simp [h1, h2, h3, h4]
  decide

theorem mlookup_cons_self (k : String) (v : α) (m : List (String × α)) :
    mlookup ((k, v) :: m) k = some v := by
  simp [mlookup, List.find?]

theorem mlookup_cons_ne (k2 u : String) (v2 : α) (m : List (String × α)) (h : k2 ≠ u) :
    mlookup ((k2, v2) :: m) u = mlookup m u := by
  simp [mlookup, List.find?, h]

theorem mlookup_minsert_self (m : List (String × α)) (k : String) (v : α) :
    mlookup (minsert m k v) k = some v := by
  induction m with
  | nil => simp [minsert, mlookup, List.find?]
  | cons p rest ih =>
    obtain ⟨k2, v2⟩ := p
    by_cases h : k2 = k
    · simp only [minsert, if_pos h]
      exact mlookup_cons_self k v rest
    · simp only [minsert, if_neg h]
      rw [mlookup_cons_ne k2 k v2 _ h]
      exact ih

theorem mlookup_minsert_ne (m : List (String × α)) (k u : String) (v : α) (h : u ≠ k) :
    mlookup (minsert m k v) u = mlookup m u := by
  induction m with
  | nil =>
    simp only [minsert]
    exact mlookup_cons_ne k u v [] (Ne.symm h)
  | cons p rest ih =>
    obtain ⟨k2, v2⟩ := p
    by_cases h2 : k2 = k
    · subst h2
      rw [show minsert ((k2, v2) :: rest) k2 v = (k2, v) :: rest from by simp [minsert]]
      rw [mlookup_cons_ne k2 u v _ (Ne.symm h), mlookup_cons_ne k2 u v2 _ (Ne.symm h)]
    · simp only [minsert, if_neg h2]
      by_cases h3 : k2 = u
      · subst h3
        rw [mlookup_cons_self, mlookup_cons_self]
      · rw [mlookup_cons_ne k2 u v2 _ h3, mlookup_cons_ne k2 u v2 _ h3]
        exact ih

theorem checkAndUpdateApp_error (cooldown : Nat) (dp : String) (dry : Bool) (env : AppEnv)
    (app : AppConfig) (s : WatcherState) (h : env.currentTag = none) :
    checkAndUpdateApp cooldown dp dry env app s = none := by
  unfold checkAndUpdateApp
  rw [h]

theorem checkAndUpdateApp_ok_state (cooldown : Nat) (dp : String) (dry : Bool) (env : AppEnv)
    (app : AppConfig) (s s2 : WatcherState) (b : Bool)
    (h : checkAndUpdateApp cooldown dp dry env app s = some (s2, b)) :
    s2.lastCheck = s.lastCheck ∧
    ∀ u, u ≠ app.uuid → mlookup s2.appStatuses u = mlookup s.appStatuses u := by
  unfold checkAndUpdateApp at h
  rcases hct : env.currentTag with _ | ct
  · rw [hct] at h
    cases h
  · rw [hct] at h
    dsimp only at h
    split at h
    · injection h with h2
      injection h2 with h3 h4
      subst h3
      exact ⟨rfl, fun u _ => rfl⟩
    · rcases hlt : env.latestTag with _ | lt
      · rw [hlt] at h
        cases h
      · rw [hlt] at h
        dsimp only at h
        split at h
        · injection h with h2
          injection h2 with h3 h4
          subst h3
          exact ⟨rfl, fun u hu => mlookup_minsert_ne _ _ _ _ hu⟩
        · split at h
          · injection h with h2
            injection h2 with h3 h4
            subst h3
            exact ⟨rfl, fun u hu => mlookup_minsert_ne _ _ _ _ hu⟩
          · split at h
            · injection h with h2
              injection h2 with h3 h4
              subst h3
              exact ⟨rfl, fun u hu => mlookup_minsert_ne _ _ _ _ hu⟩
            · cases h

theorem runApps_head (cooldown : Nat) (dp : String) (dry : Bool) (app : AppConfig)
    (env : AppEnv) (rest : List (AppConfig × AppEnv)) (s : WatcherState) :
    ∃ f up T, (runApps cooldown dp dry ((app, env) :: rest) s).2 =
      CycleEvent.check app.uuid f up :: T := by
  unfold runApps
  rcases h : checkAndUpdateApp cooldown dp dry env app s with _ | ⟨s1, upd⟩
  · exact ⟨true, false, _, rfl⟩
  · dsimp only
    by_cases hr : rest.isEmpty
    · rw [if_pos hr]
      exact ⟨false, upd, _, rfl⟩
    · rw [if_neg hr]
      exact ⟨false, upd, _, rfl⟩

theorem runApps_lastCheck (cooldown : Nat) (dp : String) (dry : Bool) :
    ∀ (pairs : List (AppConfig × AppEnv)) (s : WatcherState),
      (runApps cooldown dp dry pairs s).1.lastCheck = s.lastCheck := by
  intro pairs
  induction pairs with
  | nil =>
    intro s
    rfl
  | cons p rest ih =>
    intro s
    obtain ⟨app, env⟩ := p
    unfold runApps
    rcases h : checkAndUpdateApp cooldown dp dry env app s with _ | ⟨s1, upd⟩
    · exact ih s
    · dsimp only
      have hstep := (checkAndUpdateApp_ok_state cooldown dp dry env app s s1 upd h).1
      by_cases hr : rest.isEmpty
      · rw [if_pos hr]
        dsimp only
        rw [ih s1, hstep]
      · rw [if_neg hr]
        dsimp only
        rw [ih s1, hstep]

/-- C2 (amended): in every check cycle trace, the fixed inter-item delay
follows EVERY iteration that completes without a per-application error —
including pure evaluation or cooldown-skip iterations — except the last
one; only iterations that fail with an error (and the last iteration)
are followed by no delay, and delays occur nowhere else. -/
theorem c2_delay_after_every_nonfailed_iteration
    (cooldown : Nat) (dp : String) (dry : Bool) (pairs : List (AppConfig × AppEnv))
    (s : WatcherState) : wellPaced (runApps cooldown dp dry pairs s).2 = true := by
  induction pairs generalizing s with
  | nil => rfl
  | cons p rest ih =>
    obtain ⟨app, env⟩ := p
    unfold runApps
    rcases h : checkAndUpdateApp cooldown dp dry env app s with _ | ⟨s1, upd⟩
    · dsimp only
      rcases rest with _ | ⟨q, rest2⟩
      · rfl
      · obtain ⟨q1, q2⟩ := q
        obtain ⟨f, up, T, hT⟩ := runApps_head cooldown dp dry q1 q2 rest2 s
        rw [hT]
        have hrec := ih s
        rw [hT] at hrec
        simpa [wellPaced] using hrec
    · dsimp only
      rcases rest with _ | ⟨q, rest2⟩
      · rfl
      · rw [if_neg (by simp)]
        obtain ⟨q1, q2⟩ := q
        obtain ⟨f, up, T, hT⟩ := runApps_head cooldown dp dry q1 q2 rest2 s1
        rw [hT]
        have hrec := ih s1
        rw [hT] at hrec
        simpa [wellPaced] using hrec

/-- C2: counterexample to "the inter-item delay is inserted only between
update-performing iterations".  A cycle over two applications in which
BOTH iterations are pure evaluations (each denied with NotNewer, no
update performed) still contains the fixed sleep between them. -/
theorem c2_counterexample :
    (checkApplications 0 "auto-all" false 100
      [{ name := "a", uuid := "u1", image := "img", policy := "", pin := "" },
       { name := "b", uuid := "u2", image := "img", policy := "", pin := "" }]
      [{ now := 100, currentTag := some "1.2.3", latestTag := some "1.2.3", updateOk := true },
       { now := 100, currentTag := some "1.2.3", latestTag := some "1.2.3", updateOk := true }]
      { appStatuses := [], lastUpdates := [], lastCheck := 0 }).2 =
    [CycleEvent.check "u1" false false, CycleEvent.sleep, CycleEvent.check "u2" false false] := by
  rfl

/-- C3: counterexample to "the state map holds an entry for every
application processed in the cycle, including cooldown skips".  A cycle
whose single application is skipped by cooldown finishes with an EMPTY
state map: the skip path returns before the status write. -/
theorem c3_counterexample :
    (checkApplications 1000 "auto-all" false 500
      [{ name := "a", uuid := "u1", image := "img", policy := "", pin := "" }]
      [{ now := 500, currentTag := some "1.2.3", latestTag := some "1.2.4", updateOk := true }]
      { appStatuses := [], lastUpdates := [("u1", 100)], lastCheck := 0 }).1.appStatuses = [] ∧
    mlookup (checkApplications 1000 "auto-all" false 500
      [{ name := "a", uuid := "u1", image := "img", policy := "", pin := "" }]
      [{ now := 500, currentTag := some "1.2.3", latestTag := some "1.2.4", updateOk := true }]
      { appStatuses := [], lastUpdates := [("u1", 100)], lastCheck := 0 }).1.appStatuses "u1" =
      none := by
  exact ⟨rfl, rfl⟩

/-- C3 (amended): the global last-cycle timestamp is set at the START of
the cycle to the cycle's start instant; a cooldown-skipped application
leaves the watcher state completely unchanged (no status entry is written
for it); an application whose check fails leaves the state unchanged
(see the C10 theorem); and a status entry rich with the latest check data
is written exactly for the applications that reach the policy decision —
denied, dry-run, or successfully updated. -/
theorem c3_state_refresh_scope :
    (∀ (cooldown : Nat) (dp : String) (dry : Bool) (cycleStart : Nat)
       (apps : List AppConfig) (envs : List AppEnv) (s : WatcherState),
      (checkApplications cooldown dp dry cycleStart apps envs s).1.lastCheck = cycleStart) ∧
    (∀ (cooldown : Nat) (dp : String) (dry : Bool) (env : AppEnv) (app : AppConfig)
       (s : WatcherState) (ct : String) (tu : Nat),
      env.currentTag = some ct →
      mlookup s.lastUpdates app.uuid = some tu →
      env.now - tu < cooldown →
      checkAndUpdateApp cooldown dp dry env app s = some (s, false)) ∧
    (∀ (cooldown : Nat) (dp : String) (dry : Bool) (env : AppEnv) (app : AppConfig)
       (s : WatcherState) (ct lt : String),
      env.currentTag = some ct →
      env.latestTag = some lt →
      (∀ tu, mlookup s.lastUpdates app.uuid = some tu → ¬ (env.now - tu < cooldown)) →
      ((isUpdateAllowed ct lt (getUpdatePolicy app dp) app.pin).1 = true → dry = false →
        env.updateOk = true) →
      ∃ s2 b, checkAndUpdateApp cooldown dp dry env app s = some (s2, b) ∧
        mlookup s2.appStatuses app.uuid = some
          { name := app.name, uuid := app.uuid, image := app.image, currentTag := ct,
            latestTag := lt, policy := getUpdatePolicy app dp,
            updateNeeded := (isUpdateAllowed ct lt (getUpdatePolicy app dp) app.pin).1,
            lastCheck := env.now,
            lastUpdate :=
              if (isUpdateAllowed ct lt (getUpdatePolicy app dp) app.pin).1 = true ∧ dry = false
              then some env.now else none }) := by
  refine ⟨?_, ?_, ?_⟩
  · intro cooldown dp dry cycleStart apps envs s
    unfold checkApplications
    rw [runApps_lastCheck]
  · intro cooldown dp dry env app s ct tu hct htu hcd
    unfold checkAndUpdateApp
    rw [hct]
    dsimp only
    rw [htu]
    rw [if_pos (by simpa using hcd)]
  · intro cooldown dp dry env app s ct lt hct hlt hncd hupd
    unfold checkAndUpdateApp
    rw [hct]
    dsimp only
    have hcool : (match mlookup s.lastUpdates app.uuid with
        | some t => decide (env.now - t < cooldown)
        | none => false) = false := by
      rcases htu : mlookup s.lastUpdates app.uuid with _ | tu
      · rfl
      · simpa using hncd tu htu
    rw [hcool, if_neg (by simp)]
    rw [hlt]
    dsimp only
    by_cases hdec : (isUpdateAllowed ct lt (getUpdatePolicy app dp) app.pin).1 = true
    · rw [if_neg (by simp [hdec])]
      rcases Bool.eq_false_or_eq_true dry with hdry | hdry
      · subst hdry
        rw [if_pos rfl]
        refine ⟨_, false, rfl, ?_⟩
        rw [mlookup_minsert_self]
        simp [hdec]
      · subst hdry
        rw [if_neg (by simp), hupd hdec rfl, if_pos rfl]
        refine ⟨_, true, rfl, ?_⟩
        rw [mlookup_minsert_self]
        simp [hdec]
    · rw [if_pos (by simpa using hdec)]
      refine ⟨_, false, rfl, ?_⟩
      rw [mlookup_minsert_self]
      simp [hdec]

theorem c3_witness :
    checkAndUpdateApp 1000 "auto-all" false
        { now := 500, currentTag := some "1.2.3", latestTag := some "1.2.4", updateOk := true }
        { name := "a", uuid := "u1", image := "img", policy := "", pin := "" }
        { appStatuses := [], lastUpdates := [("u1", 100)], lastCheck := 0 } =
      some ({ appStatuses := [], lastUpdates := [("u1", 100)], lastCheck := 0 }, false) ∧
    (∃ s2 b, checkAndUpdateApp 0 "auto-all" false
        { now := 500, currentTag := some "1.2.3", latestTag := some "1.2.4", updateOk := true }
        { name := "a", uuid := "u1", image := "img", policy := "", pin := "" }
        { appStatuses := [], lastUpdates := [], lastCheck := 0 } = some (s2, b) ∧
      mlookup s2.appStatuses "u1" = some
        { name := "a", uuid := "u1", image := "img", currentTag := "1.2.3",
          latestTag := "1.2.4", policy := "auto-all", updateNeeded := true,
          lastCheck := 500, lastUpdate := some 500 }) := by
  constructor
  · exact c3_state_refresh_scope.2.1 1000 "auto-all" false
      { now := 500, currentTag := some "1.2.3", latestTag := some "1.2.4", updateOk := true }
      { name := "a", uuid := "u1", image := "img", policy := "", pin := "" }
      { appStatuses := [], lastUpdates := [("u1", 100)], lastCheck := 0 }
      "1.2.3" 100 rfl rfl (by decide)
  · obtain ⟨s2, b, h1, h2⟩ := c3_state_refresh_scope.2.2 0 "auto-all" false
      { now := 500, currentTag := some "1.2.3", latestTag := some "1.2.4", updateOk := true }
      { name := "a", uuid := "u1", image := "img", policy := "", pin := "" }
      { appStatuses := [], lastUpdates := [], lastCheck := 0 }
      "1.2.3" "1.2.4" rfl rfl (by intro tu htu; cases htu) (fun _ _ => rfl)
    refine ⟨s2, b, h1, ?_⟩
    rw [h2]
    rfl

/-- C10: per-application failure isolation.  (1) Whatever each
application's oracle answers are — controller errors (including
NotFound), registry errors, failed updates — the cycle emits exactly one
check event per application, in order: no per-application failure aborts
the cycle.  (2) If every occurrence of a uuid in the cycle fails at the
deployment controller (the NotFound case), that uuid's prior state-map
entry after the cycle is exactly its entry before: never deleted or
overwritten. -/
theorem c10_failure_isolation :
    (∀ (cooldown : Nat) (dp : String) (dry : Bool) (pairs : List (AppConfig × AppEnv))
       (s : WatcherState),
      checkedUuids (runApps cooldown dp dry pairs s).2 = pairs.map (fun p => p.1.uuid)) ∧
    (∀ (cooldown : Nat) (dp : String) (dry : Bool) (pairs : List (AppConfig × AppEnv))
       (s : WatcherState) (u : String),
      (∀ p, p ∈ pairs → p.1.uuid = u → p.2.currentTag = none) →
      mlookup (runApps cooldown dp dry pairs s).1.appStatuses u =
        mlookup s.appStatuses u) := by
  constructor
  · intro cooldown dp dry pairs
    induction pairs with
    | nil =>
      intro s
      rfl
    | cons p rest ih =>
      intro s
      obtain ⟨app, env⟩ := p
      unfold runApps
      rcases h : checkAndUpdateApp cooldown dp dry env app s with _ | ⟨s1, upd⟩
      · dsimp only
        simp [checkedUuids, List.filterMap] at ih ⊢
        exact ih s
      · dsimp only
        by_cases hr : rest.isEmpty
        · rw [if_pos hr]
          simp [checkedUuids, List.filterMap] at ih ⊢
          exact ih s1
        · rw [if_neg hr]
          simp [checkedUuids, List.filterMap] at ih ⊢
          exact ih s1
  · intro cooldown dp dry pairs
    induction pairs with
    | nil =>
      intro s u hall
      rfl
    | cons p rest ih =>
      intro s u hall
      obtain ⟨app, env⟩ := p
      have hall2 : ∀ q, q ∈ rest → q.1.uuid = u → q.2.currentTag = none :=
        fun q hq => hall q (List.mem_cons_of_mem _ hq)
      unfold runApps
      by_cases huu : app.uuid = u
      · have hen : env.currentTag = none := hall (app, env) (List.mem_cons_self _ _) huu
        rw [checkAndUpdateApp_error cooldown dp dry env app s hen]
        exact ih s u hall2
      · rcases h : checkAndUpdateApp cooldown dp dry env app s with _ | ⟨s1, upd⟩
        · exact ih s u hall2
        · have hpres := (checkAndUpdateApp_ok_state cooldown dp dry env app s s1 upd h).2
            u (fun hh => huu hh.symm)
          dsimp only
          by_cases hr : rest.isEmpty
          · rw [if_pos hr]
            dsimp only
            rw [ih s1 u hall2, hpres]
          · rw [if_neg hr]
            dsimp only
            rw [ih s1 u hall2, hpres]

theorem c10_witness :
    checkedUuids (runApps 0 "auto-all" false
      [({ name := "a", uuid := "u1", image := "img", policy := "", pin := "" },
        { now := 7, currentTag := none, latestTag := some "2.0.0", updateOk := true }),
       ({ name := "b", uuid := "u2", image := "img", policy := "", pin := "" },
        { now := 7, currentTag := some "1.2.3", latestTag := some "1.2.4", updateOk := true })]
      { appStatuses := [("u1",
          { name := "a", uuid := "u1", image := "img", currentTag := "1.0.0",
            latestTag := "1.0.0", policy := "auto-all", updateNeeded := false,
            lastCheck := 3, lastUpdate := none })],
        lastUpdates := [], lastCheck := 0 }).2 = ["u1", "u2"] ∧
    mlookup (runApps 0 "auto-all" false
      [({ name := "a", uuid := "u1", image := "img", policy := "", pin := "" },
        { now := 7, currentTag := none, latestTag := some "2.0.0", updateOk := true }),
       ({ name := "b", uuid := "u2", image := "img", policy := "", pin := "" },
        { now := 7, currentTag := some "1.2.3", latestTag := some "1.2.4", updateOk := true })]
      { appStatuses := [("u1",
          { name := "a", uuid := "u1", image := "img", currentTag := "1.0.0",
            latestTag := "1.0.0", policy := "auto-all", updateNeeded := false,
            lastCheck := 3, lastUpdate := none })],
        lastUpdates := [], lastCheck := 0 }).1.appStatuses "u1" = some
      { name := "a", uuid := "u1", image := "img", currentTag := "1.0.0",
        latestTag := "1.0.0", policy := "auto-all", updateNeeded := false,
        lastCheck := 3, lastUpdate := none } := by
  constructor
  · exact c10_failure_isolation.1 0 "auto-all" false
      [({ name := "a", uuid := "u1", image := "img", policy := "", pin := "" },
        { now := 7, currentTag := none, latestTag := some "2.0.0", updateOk := true }),
       ({ name := "b", uuid := "u2", image := "img", policy := "", pin := "" },
        { now := 7, currentTag := some "1.2.3", latestTag := some "1.2.4", updateOk := true })]
      { appStatuses := [("u1",
          { name := "a", uuid := "u1", image := "img", currentTag := "1.0.0",
            latestTag := "1.0.0", policy := "auto-all", updateNeeded := false,
            lastCheck := 3, lastUpdate := none })],
        lastUpdates := [], lastCheck := 0 }
  · rw [c10_failure_isolation.2 0 "auto-all" false _ _ "u1" (by decide)]
    rfl

theorem takeWhile_append_not (p : Char → Bool) (l1 : List Char) (c : Char) (l2 : List Char)
    (h1 : ∀ x ∈ l1, p x = true) (hc : p c = false) :
    (l1 ++ c :: l2).takeWhile p = l1 ∧ (l1 ++ c :: l2).dropWhile p = c :: l2 := by
  induction l1 with
  | nil => simp [List.takeWhile, List.dropWhile, hc]
  | cons a rest ih =>
    have ha : p a = true := h1 a (List.mem_cons_self a rest)
    have hrest := ih (fun x hx => h1 x (List.mem_cons_of_mem a hx))
    simp [List.takeWhile, List.dropWhile, ha, hrest.1, hrest.2]

theorem takeWhile_all_eq (p : Char → Bool) (l : List Char) (h : ∀ x ∈ l, p x = true) :
    l.takeWhile p = l ∧ l.dropWhile p = [] := by
  induction l with
  | nil => simp
  | cons a rest ih =>
    have ha : p a = true := h a (List.mem_cons_self a rest)
    have hrest := ih (fun x hx => h x (List.mem_cons_of_mem a hx))
    simp [List.takeWhile, List.dropWhile, ha, hrest.1, hrest.2]

theorem mem_takeWhile_sat (p : Char → Bool) :
    ∀ (l : List Char), ∀ x ∈ l.takeWhile p, p x = true := by
  intro l
  induction l with
  | nil => simp
  | cons a rest ih =>
    intro x hx
    by_cases ha : p a
    · rw [List.takeWhile_cons, if_pos ha] at hx
      rcases List.mem_cons.mp hx with h | h
      · subst h
        exact ha
      · exact ih x h
    · rw [List.takeWhile_cons, if_neg ha] at hx
      cases hx

theorem stripLeadingV_ne (c : Char) (r : List Char) (h : c ≠ 'v') :
    stripLeadingV (c :: r) = c :: r := by
  unfold stripLeadingV
  split
  · next heq =>
    injection heq with h1 h2
    exact absurd h1 h
  · rfl

theorem stripLeadingV_cases (cs : List Char) :
    cs = stripLeadingV cs ∨ cs = 'v' :: stripLeadingV cs := by
  cases cs with
  | nil => exact Or.inl rfl
  | cons c r =>
    by_cases h : c = 'v'
    · subst h
      exact Or.inr rfl
    · rw [stripLeadingV_ne c r h]
      exact Or.inl rfl

theorem all_of_mem (p : Char → Bool) (l : List Char) (h : ∀ x ∈ l, p x = true) :
    l.all p = true := by
  induction l with
  | nil => rfl
  | cons a rest ih =>
    simp only [List.all_cons, Bool.and_eq_true]
    exact ⟨h a (List.mem_cons_self a rest),
      ih (fun x hx => h x (List.mem_cons_of_mem a hx))⟩

theorem mem_of_all (p : Char → Bool) (l : List Char) (h : l.all p = true) :
    ∀ x ∈ l, p x = true := by
  induction l with
  | nil => simp
  | cons a rest ih =>
    simp only [List.all_cons, Bool.and_eq_true] at h
    intro x hx
    rcases List.mem_cons.mp hx with hx | hx
    · subst hx
      exact h.1
    · exact ih h.2 x hx

theorem parseTail_eval_pre (pre : List Char) (hp : identStr pre) :
    parseTail ('-' :: pre) = some (pre, []) := by
  simp only [parseTail]
  have h := takeWhile_all_eq semverIdentChar pre hp.2
  rw [h.1, h.2, if_neg hp.1]

theorem parseTail_eval_build (b : List Char) (hb : identStr b) :
    parseTail ('+' :: b) = some ([], b) := by
  simp only [parseTail]
  rw [if_pos ⟨hb.1, all_of_mem _ _ hb.2⟩]

theorem parseTail_eval_preBuild (pre b : List Char) (hp : identStr pre) (hb : identStr b) :
    parseTail ('-' :: (pre ++ '+' :: b)) = some (pre, b) := by
  simp only [parseTail]
  have h := takeWhile_append_not semverIdentChar pre '+' b hp.2 (by decide)
  rw [h.1, h.2, if_neg hp.1]
  show (if b ≠ [] ∧ b.all semverIdentChar = true then some (pre, b) else none) = some (pre, b)
  rw [if_pos ⟨hb.1, all_of_mem _ _ hb.2⟩]

theorem parseTail_other (c : Char) (r : List Char) (h1 : c ≠ '-') (h2 : c ≠ '+') :
    parseTail (c :: r) = none := by
  unfold parseTail
  split
  · next heq =>
    cases heq
  · next heq =>
    injection heq with ha hb
    exact absurd ha h1
  · next heq =>
    injection heq with ha hb
    exact absurd ha h2
  · rfl

theorem parseTail_inv (t pre b : List Char) (h : parseTail t = some (pre, b)) :
    (t = [] ∧ pre = [] ∧ b = []) ∨
    (identStr pre ∧ b = [] ∧ t = '-' :: pre) ∨
    (identStr b ∧ pre = [] ∧ t = '+' :: b) ∨
    (identStr pre ∧ identStr b ∧ t = '-' :: (pre ++ '+' :: b)) := by
  cases t with
  | nil =>
    refine Or.inl ⟨rfl, ?_, ?_⟩ <;>
      [injection h with h2; injection h with h2] <;>
      [injection h2 with ha hb; injection h2 with ha hb] <;>
      [exact ha.symm; exact hb.symm]
  | cons c r =>
    by_cases hc1 : c = '-'
    · subst hc1
      simp only [parseTail] at h
      by_cases hpr : r.takeWhile semverIdentChar = []
      · rw [if_pos hpr] at h
        cases h
      · rw [if_neg hpr] at h
        have hid : identStr (r.takeWhile semverIdentChar) :=
          ⟨hpr, mem_takeWhile_sat semverIdentChar r⟩
        have hsplit : r.takeWhile semverIdentChar ++ r.dropWhile semverIdentChar = r :=
          List.takeWhile_append_dropWhile semverIdentChar r
        rcases hd : r.dropWhile semverIdentChar with _ | ⟨c2, r2⟩
        · rw [hd] at h
          injection h with h2
          injection h2 with ha hb
          subst ha
          subst hb
          refine Or.inr (Or.inl ⟨hid, rfl, ?_⟩)
          rw [hd, List.append_nil] at hsplit
          rw [hsplit]
        · rw [hd] at h
          by_cases hc2 : c2 = '+'
          · subst hc2
            have h9 : (if r2 ≠ [] ∧ r2.all semverIdentChar = true
                then some (List.takeWhile semverIdentChar r, r2) else none) = some (pre, b) := h
            by_cases hbb : r2 ≠ [] ∧ r2.all semverIdentChar = true
            · rw [if_pos hbb] at h9
              injection h9 with h2
              injection h2 with ha hb
              subst ha
              subst hb
              refine Or.inr (Or.inr (Or.inr ⟨hid, ⟨hbb.1, mem_of_all _ _ hbb.2⟩, ?_⟩))
              rw [hd] at hsplit
              exact congrArg (fun l => '-' :: l) hsplit.symm
            · rw [if_neg hbb] at h9
              cases h9
          · rw [show (match c2 :: r2 with
                | [] => some (r.takeWhile semverIdentChar, [])
                | '+' :: bb =>
                  if bb ≠ [] ∧ bb.all semverIdentChar = true
                  then some (r.takeWhile semverIdentChar, bb) else none
                | x => none) = none from by
                  split
                  · next heq => cases heq
                  · next heq =>
                    injection heq with ha hb
                    exact absurd ha hc2
                  · rfl] at h
            cases h
    · by_cases hc2 : c = '+'
      · subst hc2
        simp only [parseTail] at h
        by_cases hbb : r ≠ [] ∧ r.all semverIdentChar = true
        · rw [if_pos hbb] at h
          injection h with h2
          injection h2 with ha hb
          subst ha
          subst hb
          exact Or.inr (Or.inr (Or.inl ⟨⟨hbb.1, mem_of_all _ _ hbb.2⟩, rfl, rfl⟩))
        · rw [if_neg hbb] at h
          cases h
      · rw [parseTail_other c r hc1 hc2] at h
        cases h

theorem isEmpty_false_of_ne (l : List Char) (h : l ≠ []) : l.isEmpty = false := by
  cases l with
  | nil => exact absurd rfl h
  | cons a rest => rfl

theorem parseNum_eval (d : List Char) (c : Char) (rest : List Char)
    (hd : digitsStr d) (hc : c.isDigit = false) :
    parseNum (d ++ c :: rest) = some (d, c :: rest) := by
  have h := takeWhile_append_not Char.isDigit d c rest hd.2 hc
  unfold parseNum
  rw [h.1, h.2, if_neg (by rw [isEmpty_false_of_ne d hd.1]; exact Bool.false_ne_true)]

theorem parseNum_eval_all (d : List Char) (hd : digitsStr d) :
    parseNum d = some (d, []) := by
  have h := takeWhile_all_eq Char.isDigit d hd.2
  unfold parseNum
  rw [h.1, h.2, if_neg (by rw [isEmpty_false_of_ne d hd.1]; exact Bool.false_ne_true)]

theorem parseNum_tail_eval (d t pre b : List Char) (hd : digitsStr d)
    (hpt : parseTail t = some (pre, b)) : parseNum (d ++ t) = some (d, t) := by
  rcases parseTail_inv t pre b hpt with ⟨htt, _, _⟩ | ⟨_, _, htt⟩ | ⟨_, _, htt⟩ | ⟨_, _, htt⟩
  · subst htt
    rw [List.append_nil]
    exact parseNum_eval_all d hd
  · subst htt
    exact parseNum_eval d '-' _ hd (by decide)
  · subst htt
    exact parseNum_eval d '+' _ hd (by decide)
  · subst htt
    exact parseNum_eval d '-' _ hd (by decide)

theorem parseVersion_eval (s : String) (vp d1 d2 d3 t pre b : List Char)
    (hvp : vp = [] ∨ vp = ['v']) (h1 : digitsStr d1) (h2 : digitsStr d2) (h3 : digitsStr d3)
    (hpt : parseTail t = some (pre, b))
    (hs : s.data = vp ++ (d1 ++ '.' :: (d2 ++ '.' :: (d3 ++ t)))) :
    parseVersion s = some
      { major := atoiClamped d1, minor := atoiClamped d2, patch := atoiClamped d3,
        prerelease := String.mk pre, build := String.mk b, original := s } := by
  have hstrip : stripLeadingV s.data = d1 ++ '.' :: (d2 ++ '.' :: (d3 ++ t)) := by
    rcases hvp with hvp | hvp
    · subst hvp
      rw [hs, List.nil_append]
      rcases hd1 : d1 with _ | ⟨c, rest⟩
      · exact absurd hd1 h1.1
      · have hcd : c.isDigit = true := h1.2 c (by rw [hd1]; exact List.mem_cons_self c rest)
        have hcv : c ≠ 'v' := by
          intro hh
          rw [hh] at hcd
          exact absurd hcd (by decide)
        rw [List.cons_append, stripLeadingV_ne c _ hcv]
    · subst hvp
      rw [hs]
      rfl
  have e1 : parseNum (d1 ++ '.' :: (d2 ++ '.' :: (d3 ++ t))) =
      some (d1, '.' :: (d2 ++ '.' :: (d3 ++ t))) := parseNum_eval d1 '.' _ h1 (by decide)
  have e2 : parseNum (d2 ++ '.' :: (d3 ++ t)) = some (d2, '.' :: (d3 ++ t)) :=
    parseNum_eval d2 '.' _ h2 (by decide)
  have e3 : parseNum (d3 ++ t) = some (d3, t) := parseNum_tail_eval d3 t pre b h3 hpt
  simp only [parseVersion, hstrip, e1, e2, e3, expectDot, hpt]

theorem parseNum_inv (cs d r : List Char) (h : parseNum cs = some (d, r)) :
    digitsStr d ∧ cs = d ++ r := by
  unfold parseNum at h
  by_cases he : (cs.takeWhile Char.isDigit).isEmpty
  · rw [if_pos he] at h
    cases h
  · rw [if_neg he] at h
    injection h with h2
    injection h2 with ha hb
    subst ha
    subst hb
    refine ⟨⟨?_, mem_takeWhile_sat _ cs⟩, (List.takeWhile_append_dropWhile _ _).symm⟩
    intro hh
    apply he
    rw [hh]
    rfl

theorem expectDot_ne (c : Char) (r : List Char) (h : c ≠ '.') :
    expectDot (c :: r) = none := by
  unfold expectDot
  split
  · next heq =>
    injection heq with ha hb
    exact absurd ha h
  · rfl

theorem expectDot_inv (r cs2 : List Char) (h : expectDot r = some cs2) :
    r = '.' :: cs2 := by
  cases r with
  | nil => cases h
  | cons c rest =>
    by_cases hc : c = '.'
    · subst hc
      injection h with h2
      rw [h2]
    · rw [expectDot_ne c rest hc] at h
      cases h

theorem parseVersion_inv (s : String) (v : Version) (h : parseVersion s = some v) :
    ∃ vp d1 d2 d3 t pre b : List Char,
      (vp = [] ∨ vp = ['v']) ∧ digitsStr d1 ∧ digitsStr d2 ∧ digitsStr d3 ∧
      parseTail t = some (pre, b) ∧
      s.data = vp ++ (d1 ++ '.' :: (d2 ++ '.' :: (d3 ++ t))) ∧
      v = { major := atoiClamped d1, minor := atoiClamped d2, patch := atoiClamped d3,
            prerelease := String.mk pre, build := String.mk b, original := s } := by
  unfold parseVersion at h
  split at h
  · cases h
  · next d1 r1 heq1 =>
    split at h
    · cases h
    · next cs2 heq2 =>
      split at h
      · cases h
      · next d2 r2 heq3 =>
        split at h
        · cases h
        · next cs3 heq4 =>
          split at h
          · cases h
          · next d3 r3 heq5 =>
            split at h
            · cases h
            · next pb heq6 =>
              injection h with h2
              obtain ⟨hd1, hcs1⟩ := parseNum_inv _ _ _ heq1
              obtain ⟨hd2, hcs2⟩ := parseNum_inv _ _ _ heq3
              obtain ⟨hd3, hcs3⟩ := parseNum_inv _ _ _ heq5
              have hr1 := expectDot_inv _ _ heq2
              have hr2 := expectDot_inv _ _ heq4
              have hstrip : stripLeadingV s.data =
                  d1 ++ '.' :: (d2 ++ '.' :: (d3 ++ r3)) := by
                rw [hcs1, hr1, hcs2, hr2, hcs3]
              rcases stripLeadingV_cases s.data with hsd | hsd
              · refine ⟨[], d1, d2, d3, r3, pb.1, pb.2, Or.inl rfl, hd1, hd2, hd3, ?_, ?_, ?_⟩
                · rw [heq6]
                · rw [List.nil_append, ← hstrip, ← hsd]
                · rw [← h2]
              · refine ⟨['v'], d1, d2, d3, r3, pb.1, pb.2, Or.inr rfl, hd1, hd2, hd3, ?_, ?_, ?_⟩
                · rw [heq6]
                · rw [show (['v'] ++ (d1 ++ '.' :: (d2 ++ '.' :: (d3 ++ r3)))) =
                    'v' :: (d1 ++ '.' :: (d2 ++ '.' :: (d3 ++ r3))) from rfl, ← hstrip, ← hsd]
                · rw [← h2]

theorem tailForm_parse (t : List Char) (htf : TailForm t) :
    ∃ pre b, parseTail t = some (pre, b) := by
  rcases htf with h | ⟨pre, hi, hte⟩ | ⟨b, hi, hte⟩ | ⟨pre, b, hp, hb, hte⟩
  · subst h
    exact ⟨[], [], rfl⟩
  · subst hte
    exact ⟨pre, [], parseTail_eval_pre pre hi⟩
  · subst hte
    exact ⟨[], b, parseTail_eval_build b hi⟩
  · subst hte
    exact ⟨pre, b, parseTail_eval_preBuild pre b hp hb⟩

/-- C9 (amended): the parser accepts exactly the strings of the spec's
form (optional leading v, three dot-separated digit runs, optional
-prerelease and/or +build over the alphanumeric/hyphen/dot alphabet); the
stored original text is exactly the input string; and each parsed numeric
component equals the written decimal component whenever that component's
value fits in a signed 64-bit int (larger components are clamped to
2^63 - 1 because ParseVersion discards the Atoi range error). -/
theorem c9_parse_characterization :
    (∀ s : String, (parseVersion s).isSome = true ↔ SpecForm s) ∧
    (∀ (s : String) (v : Version), parseVersion s = some v → v.original = s) ∧
    (∀ (s : String) (vp d1 d2 d3 t : List Char),
      (vp = [] ∨ vp = ['v']) → digitsStr d1 → digitsStr d2 → digitsStr d3 → TailForm t →
      s.data = vp ++ (d1 ++ '.' :: (d2 ++ '.' :: (d3 ++ t))) →
      ∀ v : Version, parseVersion s = some v →
        (digitsToNat d1 < 2 ^ 63 → v.major = digitsToNat d1) ∧
        (digitsToNat d2 < 2 ^ 63 → v.minor = digitsToNat d2) ∧
        (digitsToNat d3 < 2 ^ 63 → v.patch = digitsToNat d3)) := by
  have hclamp : ∀ d : List Char, digitsToNat d < 2 ^ 63 →
      atoiClamped d = (digitsToNat d : Int) := by
    intro d hd
    unfold atoiClamped maxInt64
    rw [min_eq_left (by omega)]
    rfl
  refine ⟨?_, ?_, ?_⟩
  · intro s
    constructor
    · intro hs
      obtain ⟨v, hv⟩ := Option.isSome_iff_exists.mp hs
      obtain ⟨vp, d1, d2, d3, t, pre, b, hvp, h1, h2, h3, hpt, hsd, _⟩ :=
        parseVersion_inv s v hv
      have htf : TailForm t := by
        rcases parseTail_inv t pre b hpt with ⟨ht, _, _⟩ | ⟨hi, _, hte⟩ | ⟨hi, _, hte⟩ |
          ⟨hi, hb, hte⟩
        · exact Or.inl ht
        · exact Or.inr (Or.inl ⟨pre, hi, hte⟩)
        · exact Or.inr (Or.inr (Or.inl ⟨b, hi, hte⟩))
        · exact Or.inr (Or.inr (Or.inr ⟨pre, b, hi, hb, hte⟩))
      exact ⟨vp, d1, d2, d3, t, hvp, h1, h2, h3, htf, hsd⟩
    · intro hsf
      obtain ⟨vp, d1, d2, d3, t, hvp, h1, h2, h3, htf, hsd⟩ := hsf
      obtain ⟨pre, b, hpt⟩ := tailForm_parse t htf
      rw [parseVersion_eval s vp d1 d2 d3 t pre b hvp h1 h2 h3 hpt hsd]
      rfl
  · intro s v hv
    obtain ⟨vp, d1, d2, d3, t, pre, b, hvp, h1, h2, h3, hpt, hsd, hrec⟩ :=
      parseVersion_inv s v hv
    rw [hrec]
  · intro s vp d1 d2 d3 t hvp h1 h2 h3 htf hsd v hv
    obtain ⟨pre, b, hpt⟩ := tailForm_parse t htf
    rw [parseVersion_eval s vp d1 d2 d3 t pre b hvp h1 h2 h3 hpt hsd] at hv
    injection hv with hv2
    refine ⟨?_, ?_, ?_⟩
    · intro hlt
      rw [← hv2]
      exact hclamp d1 hlt
    · intro hlt
      rw [← hv2]
      exact hclamp d2 hlt
    · intro hlt
      rw [← hv2]
      exact hclamp d3 hlt

theorem c9_witness :
    (parseVersion "v1.2.3-rc.1+b7").isSome = true ∧
    SpecForm "1.2.3" ∧
    ({ major := 1, minor := 2, patch := 3, prerelease := "", build := "",
       original := "1.2.3" } : Version).original = "1.2.3" ∧
    ({ major := 1, minor := 2, patch := 3, prerelease := "", build := "",
       original := "1.2.3" } : Version).major = digitsToNat ['1'] := by
  refine ⟨?_, ?_, ?_, ?_⟩
  · exact (c9_parse_characterization.1 "v1.2.3-rc.1+b7").mpr
      ⟨['v'], ['1'], ['2'], ['3'], ['-', 'r', 'c', '.', '1', '+', 'b', '7'], Or.inr rfl,
       ⟨by decide, by decide⟩, ⟨by decide, by decide⟩, ⟨by decide, by decide⟩,
       Or.inr (Or.inr (Or.inr ⟨['r', 'c', '.', '1'], ['b', '7'],
         ⟨by decide, by decide⟩, ⟨by decide, by decide⟩, (by decide)⟩)),
       (by decide)⟩
  · exact (c9_parse_characterization.1 "1.2.3").mp rfl
  · exact c9_parse_characterization.2.1 "1.2.3" _ rfl
  · exact (c9_parse_characterization.2.2 "1.2.3" [] ['1'] ['2'] ['3'] [] (Or.inl rfl)
      ⟨by decide, by decide⟩ ⟨by decide, by decide⟩ ⟨by decide, by decide⟩
      (Or.inl rfl) (by decide) _ rfl).1 (by decide)

/-- C9: counterexample to "the parsed major/minor/patch integers equal
the written numeric components" for every accepted input.  The regex
accepts a 19-digit major component whose value exceeds 2^63 - 1; Atoi's
range error is discarded, so the stored major is the clamped maximum
64-bit int, not the written component. -/
theorem c9_counterexample :
    (parseVersion "9999999999999999999.0.0").map (fun v => v.major) =
      some 9223372036854775807 ∧
    digitsToNat ("9999999999999999999".data) = 9999999999999999999 ∧
    (9223372036854775807 : Int) ≠ (9999999999999999999 : Int) := by
  refine ⟨rfl, by decide, by decide⟩
